import Mathlib

/-!
Shallow embedding of the knative serving networking controllers
(Route / ClusterIngress reconcilers, certificate and secret builders)
and proofs about them.

Strings are modelled as lists of characters (`Str`), so that the Go
`strings.Split` / `strings.Join` functions can be reasoned about by
structural induction.  Go string comparison (`sort.Strings`) is byte-wise
lexicographic; we compare characters by their code points, which agrees
with Go on the inputs of interest.
-/

namespace Serving

/-- Strings as character lists. -/
abbrev Str := List Char

/-- Go strict lexicographic order on strings (byte-wise `<`), as used by
`sort.Strings` in `certificate.go` and `route.go`. -/
def lexLt : Str → Str → Bool
  | [], [] => false
  | [], _ :: _ => true
  | _ :: _, [] => false
  | a :: as, b :: bs =>
    if a.toNat < b.toNat then true
    else if b.toNat < a.toNat then false
    else lexLt as bs

/-- Insert a string into a lexicographically sorted list. -/
def insertSorted (s : Str) : List Str → List Str
  | [] => [s]
  | t :: ts => if lexLt t s then t :: insertSorted s ts else s :: t :: ts

/-- The effect of Go `sort.Strings`: the input list rearranged into
lexicographic order (computed here by insertion sort; the result of any
comparison sort under a total order is the same on duplicate-free input). -/
def sortStrings (l : List Str) : List Str :=
  l.foldr insertSorted []

/-- Loop of `dedup` (identical in `route.go`, `certificate.go` and the
clusteringress controller): keep the first occurrence of each string,
`seen` playing the role of the `existed` set. -/
def dedupAux (seen : List Str) : List Str → List Str
  | [] => []
  | s :: rest =>
    if s ∈ seen then dedupAux seen rest
    else s :: dedupAux (s :: seen) rest

/-- Go `dedup`: drop duplicate strings, preserving first-occurrence order. -/
def dedup (l : List Str) : List Str := dedupAux [] l

/-- Go `strings.Split(s, ".")`: split at every dot, keeping empty pieces;
a string with n dots yields n+1 pieces. -/
def splitOnDot : Str → List Str
  | [] => [[]]
  | c :: cs =>
    if c = '.' then [] :: splitOnDot cs
    else
      match splitOnDot cs with
      | [] => [[c]]
      | p :: ps => (c :: p) :: ps

/-- Go `strings.Join(pieces, ".")`. -/
def joinDot : List Str → Str
  | [] => []
  | [p] => p
  | p :: q :: ps => p ++ '.' :: joinDot (q :: ps)

theorem splitOnDot_ne_nil (s : Str) : splitOnDot s ≠ [] := by
  cases s with
  | nil => simp [splitOnDot]
  | cons c cs =>
    simp only [splitOnDot]
    split
    · simp
    · cases h : splitOnDot cs <;> simp

theorem joinDot_splitOnDot (s : Str) : joinDot (splitOnDot s) = s := by
  induction s with
  | nil => rfl
  | cons c cs ih =>
    simp only [splitOnDot]
    split
    · rename_i hdot
      cases h : splitOnDot cs with
      | nil => exact absurd h (splitOnDot_ne_nil cs)
      | cons p ps =>
        rw [h] at ih
        simp [joinDot, ih, hdot]
    · cases h : splitOnDot cs with
      | nil => exact absurd h (splitOnDot_ne_nil cs)
      | cons p ps =>
        rw [h] at ih
        cases ps with
        | nil => simp_all [joinDot]
        | cons q qs => simp_all [joinDot]

theorem splitOnDot_star_dot (s : Str) :
    splitOnDot ('*' :: '.' :: s) = ['*'] :: splitOnDot s := rfl

/-- Number of pieces produced by `splitOnDot` is the dot count plus one. -/
theorem length_splitOnDot (s : Str) :
    (splitOnDot s).length = s.count '.' + 1 := by
  induction s with
  | nil => rfl
  | cons c cs ih =>
    simp only [splitOnDot]
    split
    · rename_i hdot
      simp [List.count_cons, hdot, ih]
    · rename_i hdot
      cases h : splitOnDot cs with
      | nil => exact absurd h (splitOnDot_ne_nil cs)
      | cons p ps =>
        rw [h] at ih
        have hne : ¬ ((c == '.') = true) := by
          simpa using hdot
        simp [List.count_cons, hne] at ih ⊢
        omega

theorem perm_insertSorted (s : Str) (l : List Str) :
    (insertSorted s l).Perm (s :: l) := by
  induction l with
  | nil => simp [insertSorted]
  | cons t ts ih =>
    simp only [insertSorted]
    split
    · exact (ih.cons t).trans (List.Perm.swap s t ts)
    · exact List.Perm.refl _

theorem perm_sortStrings (l : List Str) : (sortStrings l).Perm l := by
  induction l with
  | nil => simp [sortStrings]
  | cons s ss ih =>
    simpa [sortStrings] using
      (perm_insertSorted s (sortStrings ss)).trans (ih.cons s)

theorem mem_sortStrings {x : Str} {l : List Str} :
    x ∈ sortStrings l ↔ x ∈ l :=
  (perm_sortStrings l).mem_iff

theorem mem_dedupAux {x : Str} (seen : List Str) (l : List Str) :
    x ∈ dedupAux seen l ↔ x ∈ l ∧ x ∉ seen := by
  induction l generalizing seen with
  | nil => simp [dedupAux]
  | cons s rest ih =>
    by_cases hs : s ∈ seen
    · rw [dedupAux, if_pos hs, ih]
      constructor
      · rintro ⟨hr, hns⟩
        exact ⟨List.mem_cons_of_mem _ hr, hns⟩
      · rintro ⟨hr, hns⟩
        rcases List.mem_cons.mp hr with rfl | hr
        · exact absurd hs hns
        · exact ⟨hr, hns⟩
    · rw [dedupAux, if_neg hs]
      constructor
      · intro hmem
        rcases List.mem_cons.mp hmem with rfl | hmem
        · exact ⟨List.mem_cons_self _ _, hs⟩
        · obtain ⟨hr, hns⟩ := (ih (s :: seen)).mp hmem
          refine ⟨List.mem_cons_of_mem _ hr, ?_⟩
          intro hx
          exact hns (List.mem_cons_of_mem _ hx)
      · rintro ⟨hr, hns⟩
        rcases List.mem_cons.mp hr with rfl | hr
        · exact List.mem_cons_self _ _
        · by_cases hx : x = s
          · exact hx ▸ List.mem_cons_self _ _
          · refine List.mem_cons_of_mem _ ((ih (s :: seen)).mpr ⟨hr, ?_⟩)
            intro hin
            rcases List.mem_cons.mp hin with h | h
            · exact hx h
            · exact hns h

theorem nodup_dedupAux (seen : List Str) (l : List Str) :
    (dedupAux seen l).Nodup := by
  induction l generalizing seen with
  | nil => simp [dedupAux]
  | cons s rest ih =>
    simp only [dedupAux]
    split
    · exact ih seen
    · refine List.Nodup.cons ?_ (ih (s :: seen))
      intro hs
      have := (mem_dedupAux (s :: seen) rest).mp hs
      exact this.2 (List.mem_cons_self s seen)

theorem mem_dedup {x : Str} {l : List Str} : x ∈ dedup l ↔ x ∈ l := by
  simp [dedup, mem_dedupAux]

theorem nodup_dedup (l : List Str) : (dedup l).Nodup :=
  nodup_dedupAux [] l

/-! ## Certificate construction (`route/resources/certificate.go`) -/

/-- The fields of a `v1alpha1.Route` used by the certificate builders:
object namespace (`ns`, since `namespace` is reserved in Lean), object
name, and `Status.Domain`. -/
structure Route where
  ns : Str
  name : Str
  statusDomain : Str
  deriving DecidableEq

/-- `networkingv1alpha1.CertificateSpec`: DNS names plus target secret name. -/
structure CertificateSpec where
  dnsNames : List Str
  secretName : Str
  deriving DecidableEq

/-- A `networkingv1alpha1.Certificate` as built by `makeCert`: name,
namespace, the `RouteNamespaceNameAnnotationKey` annotation (the JSON
list of route keys, modelled as the list of `(namespace, name)` pairs it
marshals), an optional controlling owner reference, and the spec. -/
structure Certificate where
  name : Str
  ns : Str
  routeAnnotation : List (Str × Str)
  owner : Option (Str × Str)
  spec : CertificateSpec
  deriving DecidableEq

/-- Stand-in for `system.Namespace()` (an external environment lookup;
the knative default). The claims do not depend on its value. -/
def systemNamespace : Str := "knative-serving".data

/-- Go `wildcard`: `"*." + strings.Join(strings.Split(dnsName, ".")[1:], ".")`. -/
def wildcard (dnsName : Str) : Str :=
  '*' :: '.' :: joinDot ((splitOnDot dnsName).drop 1)

/-- Go `wildcardCertName`: join of all but the first `.`-separated label of
the wildcard DNS name. -/
def wildcardCertName (wildcardDNSName : Str) : Str :=
  joinDot ((splitOnDot wildcardDNSName).drop 1)

/-- Go `makeCert` from `certificate.go`. `json.Marshal` of a string slice
cannot fail, so the function is total; the marshalled
route-namespace/name annotation is modelled as the list of pairs. -/
def makeCert (route : Route) (dnsNames : List Str) (certName : Str) : Certificate :=
  { name := certName
    ns := systemNamespace
    routeAnnotation := [(route.ns, route.name)]
    owner := none
    spec := { dnsNames := dnsNames, secretName := certName } }

/-- The error returned by `MakeCertificates` when `Status.Domain` is empty
(carrying the route namespace and name interpolated into the message). -/
inductive CertError
  | emptyDomain (ns name : Str)
  deriving DecidableEq

/-- The `enableWildcardCert` loop of `MakeCertificates`: for each DNS name
in order, compute its wildcard form, skip it if already seen
(`existingWildcardNames`), otherwise emit one certificate for the single
wildcard name. -/
def wildcardLoop (route : Route) (seen : List Str) : List Str → List Certificate
  | [] => []
  | dnsName :: rest =>
    let wildcardDNSName := wildcard dnsName
    if wildcardDNSName ∈ seen then wildcardLoop route seen rest
    else
      makeCert route [wildcardDNSName] (wildcardCertName wildcardDNSName)
        :: wildcardLoop route (wildcardDNSName :: seen) rest

/-- Go `MakeCertificates` from `certificate.go`.  `routeCertificateName`
stands for `names.RouteCertificate` (its source file is not in the tree);
it is only used on the non-wildcard branch and the claims hold for every
choice of it. -/
def MakeCertificates (routeCertificateName : Route → Str) (route : Route)
    (dnsNames0 : List Str) (enableWildcardCert : Bool) :
    Except CertError (List Certificate) :=
  if route.statusDomain = [] then
    .error (.emptyDomain route.ns route.name)
  else
    let dnsNames := sortStrings (dedup dnsNames0)
    if enableWildcardCert then
      .ok (wildcardLoop route [] dnsNames)
    else
      .ok [makeCert route dnsNames (routeCertificateName route)]

theorem wildcardCertName_wildcard (d : Str) :
    wildcardCertName (wildcard d) = (wildcard d).drop 2 := by
  simp only [wildcardCertName, wildcard, splitOnDot_star_dot, List.drop_succ_cons,
    List.drop_zero, joinDot_splitOnDot, List.drop]

/-- The wildcard loop produces exactly one certificate per distinct
wildcard form: it equals mapping `makeCert` over the deduplicated list of
wildcard forms. -/
theorem wildcardLoop_eq (route : Route) (seen : List Str) (names : List Str) :
    wildcardLoop route seen names =
      (dedupAux seen (names.map wildcard)).map
        (fun w => makeCert route [w] (wildcardCertName w)) := by
  induction names generalizing seen with
  | nil => rfl
  | cons n rest ih =>
    simp only [wildcardLoop, List.map_cons, dedupAux]
    by_cases hw : wildcard n ∈ seen
    · rw [if_pos hw, if_pos hw, ih]
    · rw [if_neg hw, if_neg hw, ih]
      rfl

/-- On a route with a non-empty status domain, the wildcard branch of
`MakeCertificates` returns one certificate per distinct wildcard form of
the sorted, deduplicated input names. -/
theorem MakeCertificates_wildcard_eq (rcn : Route → Str) (route : Route)
    (dnsNames0 : List Str) (h : route.statusDomain ≠ []) :
    MakeCertificates rcn route dnsNames0 true =
      .ok ((dedup ((sortStrings (dedup dnsNames0)).map wildcard)).map
        (fun w => makeCert route [w] (wildcardCertName w))) := by
  rw [MakeCertificates, if_neg h]
  simp only [if_pos rfl]
  rw [wildcardLoop_eq]
  rfl

/-- C1: with wildcard mode enabled and a non-empty route status domain,
`MakeCertificates` deduplicates and lexicographically sorts the DNS names,
maps each to its parent wildcard form, and returns exactly one certificate
per distinct wildcard form — named by the wildcard host without the `*.`
marker and carrying that single wildcard DNS name in its spec; on
`{a.x.example.com, b.x.example.com, y.example.com}` it returns exactly the
two certificates for `*.x.example.com` and `*.example.com`. -/
theorem makeCertificates_wildcard_dedup (rcn : Route → Str) (route : Route)
    (dnsNames0 : List Str) (h : route.statusDomain ≠ []) :
    MakeCertificates rcn route dnsNames0 true =
      .ok ((dedup ((sortStrings (dedup dnsNames0)).map wildcard)).map
        (fun w => makeCert route [w] (wildcardCertName w)))
    ∧ (dedup ((sortStrings (dedup dnsNames0)).map wildcard)).Nodup
    ∧ (∀ d ∈ dnsNames0,
        wildcard d ∈ dedup ((sortStrings (dedup dnsNames0)).map wildcard))
    ∧ (∀ w ∈ dedup ((sortStrings (dedup dnsNames0)).map wildcard),
        (∃ d ∈ dnsNames0, w = wildcard d)
        ∧ (makeCert route [w] (wildcardCertName w)).name = w.drop 2
        ∧ (makeCert route [w] (wildcardCertName w)).spec.dnsNames = [w])
    ∧ MakeCertificates rcn route
        ["a.x.example.com".data, "b.x.example.com".data, "y.example.com".data] true =
      .ok [makeCert route ["*.x.example.com".data] "x.example.com".data,
           makeCert route ["*.example.com".data] "example.com".data] := by
  refine ⟨MakeCertificates_wildcard_eq rcn route dnsNames0 h, nodup_dedup _, ?_, ?_, ?_⟩
  · intro d hd
    exact mem_dedup.mpr (List.mem_map_of_mem wildcard
      (mem_sortStrings.mpr (mem_dedup.mpr hd)))
  · intro w hw
    obtain ⟨d, hd, rfl⟩ := List.mem_map.mp (mem_dedup.mp hw)
    have hd0 : d ∈ dnsNames0 := mem_dedup.mp (mem_sortStrings.mp hd)
    exact ⟨⟨d, hd0, rfl⟩, wildcardCertName_wildcard d, rfl⟩
  · rw [MakeCertificates_wildcard_eq rcn route _ h]
    rfl

/-- Concrete instantiation of `makeCertificates_wildcard_dedup`. -/
theorem makeCertificates_wildcard_dedup_witness :
    ((⟨"ns".data, "r".data, "d.example.com".data⟩ : Route).statusDomain ≠ [])
    ∧ MakeCertificates (fun r => r.name)
        ⟨"ns".data, "r".data, "d.example.com".data⟩
        ["a.x.example.com".data, "b.x.example.com".data, "y.example.com".data] true =
      .ok [makeCert ⟨"ns".data, "r".data, "d.example.com".data⟩
             ["*.x.example.com".data] "x.example.com".data,
           makeCert ⟨"ns".data, "r".data, "d.example.com".data⟩
             ["*.example.com".data] "example.com".data] :=
  ⟨by decide,
   (makeCertificates_wildcard_dedup (fun r => r.name)
     ⟨"ns".data, "r".data, "d.example.com".data⟩
     ["a.x.example.com".data, "b.x.example.com".data, "y.example.com".data]
     (by decide)).2.2.2.2⟩

/-- C9: a route whose `Status.Domain` is empty makes `MakeCertificates`
return the empty-domain error — and hence no certificates — for every DNS
name list and both wildcard-mode settings. -/
theorem makeCertificates_emptyDomain_error (rcn : Route → Str) (route : Route)
    (dnsNames0 : List Str) (enableWildcardCert : Bool)
    (h : route.statusDomain = []) :
    MakeCertificates rcn route dnsNames0 enableWildcardCert =
      .error (.emptyDomain route.ns route.name) := by
  rw [MakeCertificates, if_pos h]

/-- Concrete instantiation of `makeCertificates_emptyDomain_error`. -/
theorem makeCertificates_emptyDomain_error_witness :
    ((⟨"ns".data, "r".data, []⟩ : Route).statusDomain = [])
    ∧ MakeCertificates (fun r => r.name) ⟨"ns".data, "r".data, []⟩
        ["a.x.example.com".data] true =
      .error (.emptyDomain "ns".data "r".data) :=
  ⟨rfl,
   makeCertificates_emptyDomain_error (fun r => r.name) ⟨"ns".data, "r".data, []⟩
     ["a.x.example.com".data] true rfl⟩

/-! ## Gateway service namespaces (`clusteringress/resources/secret.go` and
the clusteringress controller helper of the same name) -/

/-- One entry of `config.Istio.IngressGateways` / `LocalGateways`. -/
structure IngressGateway where
  gatewayName : Str
  serviceURL : Str
  deriving DecidableEq

/-- The `config.Istio` snapshot fragment consumed by the clusteringress
reconciler. -/
structure IstioConfig where
  ingressGateways : List IngressGateway
  localGateways : List IngressGateway
  deriving DecidableEq

/-- The loop of Go `GetGatewaySvcNamespaces`: for each configured ingress
gateway, `strings.Split(ingressgateway.ServiceURL, ".")[1]`.  The index
access is unguarded in the source; `none` models the Go runtime panic
(index out of range) raised when a service URL contains no dot. -/
def getGatewaySvcNamespacesLoop : List IngressGateway → Option (List Str)
  | [] => some []
  | gw :: rest =>
    match (splitOnDot gw.serviceURL).get? 1 with
    | none => none
    | some ns =>
      match getGatewaySvcNamespacesLoop rest with
      | none => none
      | some tail => some (ns :: tail)

/-- Go `GetGatewaySvcNamespaces` (`secret.go`) and its twin
`getGatewaySvcNamespaces` in the clusteringress controller. -/
def GetGatewaySvcNamespaces (cfg : IstioConfig) : Option (List Str) :=
  getGatewaySvcNamespacesLoop cfg.ingressGateways

/-- The second `.`-separated label of a string (the piece at index 1 of
the split). -/
def secondLabel (s : Str) : Str := ((splitOnDot s).drop 1).headD []

theorem get_one_splitOnDot_of_dot {s : Str} (h : '.' ∈ s) :
    (splitOnDot s).get? 1 = some (secondLabel s) := by
  have hcount : 0 < s.count '.' := List.count_pos_iff.mpr h
  have hlen : 2 ≤ (splitOnDot s).length := by
    rw [length_splitOnDot]; omega
  cases hs : splitOnDot s with
  | nil => rw [hs] at hlen; simp at hlen
  | cons a tail =>
    cases tail with
    | nil => rw [hs] at hlen; simp at hlen
    | cons b tail2 => simp [secondLabel, hs]

theorem get_one_splitOnDot_of_no_dot {s : Str} (h : '.' ∉ s) :
    (splitOnDot s).get? 1 = none := by
  have hcount : s.count '.' = 0 := List.count_eq_zero.mpr h
  have hlen : (splitOnDot s).length = 1 := by rw [length_splitOnDot, hcount]
  exact List.get?_eq_none.mpr (by omega)

/-- C10: `GetGatewaySvcNamespaces` returns, per configured ingress gateway
in configuration order, exactly the second dot-separated label of its
`ServiceURL` — and when some configured `ServiceURL` has no dot, the
unguarded index access panics (modelled by `none`) instead of returning
an error. -/
theorem getGatewaySvcNamespaces_secondLabel (cfg : IstioConfig) :
    ((∀ gw ∈ cfg.ingressGateways, '.' ∈ gw.serviceURL) →
      GetGatewaySvcNamespaces cfg =
        some (cfg.ingressGateways.map (fun gw => secondLabel gw.serviceURL)))
    ∧ ((∃ gw ∈ cfg.ingressGateways, '.' ∉ gw.serviceURL) →
      GetGatewaySvcNamespaces cfg = none) := by
  have hA : ∀ l : List IngressGateway, (∀ gw ∈ l, '.' ∈ gw.serviceURL) →
      getGatewaySvcNamespacesLoop l =
        some (l.map (fun gw => secondLabel gw.serviceURL)) := by
    intro l
    induction l with
    | nil => intro _; rfl
    | cons gw rest ih =>
      intro hall
      have hgw := hall gw (List.mem_cons_self _ _)
      rw [getGatewaySvcNamespacesLoop, get_one_splitOnDot_of_dot hgw,
        ih (fun g hg => hall g (List.mem_cons_of_mem _ hg))]
      rfl
  have hB : ∀ l : List IngressGateway, (∃ gw ∈ l, '.' ∉ gw.serviceURL) →
      getGatewaySvcNamespacesLoop l = none := by
    intro l
    induction l with
    | nil => rintro ⟨gw, hmem, _⟩; simp at hmem
    | cons g rest ih =>
      rintro ⟨gw, hmem, hnd⟩
      rcases List.mem_cons.mp hmem with rfl | hmem2
      · rw [getGatewaySvcNamespacesLoop, get_one_splitOnDot_of_no_dot hnd]
      · rw [getGatewaySvcNamespacesLoop, ih ⟨gw, hmem2, hnd⟩]
        cases (splitOnDot g.serviceURL).get? 1 <;> rfl
  exact ⟨hA cfg.ingressGateways, hB cfg.ingressGateways⟩

/-- Concrete instantiation of `getGatewaySvcNamespaces_secondLabel`: a
config whose gateway URLs all have a second label, and one with a dotless
URL. -/
theorem getGatewaySvcNamespaces_secondLabel_witness :
    (GetGatewaySvcNamespaces
        ⟨[⟨"gw1".data, "istio-ingressgateway.istio-system.svc.cluster.local".data⟩], []⟩ =
      some ["istio-system".data])
    ∧ GetGatewaySvcNamespaces ⟨[⟨"gw1".data, "nodothere".data⟩], []⟩ = none := by
  constructor
  · have h := (getGatewaySvcNamespaces_secondLabel
      ⟨[⟨"gw1".data, "istio-ingressgateway.istio-system.svc.cluster.local".data⟩], []⟩).1
      (by decide)
    rw [h]
    rfl
  · exact (getGatewaySvcNamespaces_secondLabel
      ⟨[⟨"gw1".data, "nodothere".data⟩], []⟩).2 ⟨_, List.mem_cons_self _ _, by decide⟩

/-! ## Status-write suppression in `Reconcile`
(`route.go` lines 204–221 and the identical tail of the clusteringress
`Reconcile`, with its helper `updateStatus`). -/

/-- A stored object with a spec/metadata part (`rest`, untouched by
status-only updates) and a `status` part.  Deep copies have value
semantics and `equality.Semantic.DeepEqual` / `reflect.DeepEqual` on
statuses is equality. -/
structure KObj (σ τ : Type) where
  rest : σ
  status : τ
  deriving DecidableEq

/-- A write issued against the store by the status tail of `Reconcile`. -/
inductive StatusCall (σ τ : Type)
  | updateStatus (obj : KObj σ τ)
  deriving DecidableEq

/-- Go `updateStatus` (both reconcilers): re-read the object from the
lister (`listerGet` is its verdict); on lister error return it with no
write; if the lister copy's status already deep-equals the desired one,
return with no write; otherwise deep-copy the lister object, overwrite
only its status, and issue `UpdateStatus` (whose store verdict is
`storeErr`). -/
def updateStatus {σ τ ε : Type} [DecidableEq τ]
    (listerGet : Except ε (KObj σ τ)) (storeErr : Option ε)
    (desired : KObj σ τ) : List (StatusCall σ τ) × Option ε :=
  match listerGet with
  | .error e => ([], some e)
  | .ok ci =>
    if ci.status = desired.status then ([], none)
    else ([.updateStatus ⟨ci.rest, desired.status⟩], storeErr)

/-- The status tail of `Reconcile` for an object found in the cache: run
the reconcile body on a deep copy, compare the original and mutated
status with a deep-equality check; if unchanged skip the status write and
return the body's error; if changed call `updateStatus`, returning its
error when it fails and otherwise the body's error. -/
def reconcileStatusTail {σ τ ε : Type} [DecidableEq τ]
    (original : KObj σ τ) (body : KObj σ τ → KObj σ τ × Option ε)
    (listerGet : Except ε (KObj σ τ)) (storeErr : Option ε) :
    List (StatusCall σ τ) × Option ε :=
  let r := body original
  if original.status = r.1.status then ([], r.2)
  else
    let u := updateStatus listerGet storeErr r.1
    match u.2 with
    | some e => (u.1, some e)
    | none => (u.1, r.2)

/-- C2: for a found object whose cache copy is the loaded original — if
the status computed by the reconcile body deep-equals the original
status, no status update is issued and the body's error is returned; if
it differs, exactly one status-only update (original object with only the
status replaced) is issued, a failing update's error becomes the
reconcile error (so the key is retried), and a successful update leaves
the body's error as the result. -/
theorem reconcile_status_write_suppression {σ τ ε : Type} [DecidableEq τ]
    (original : KObj σ τ) (body : KObj σ τ → KObj σ τ × Option ε)
    (storeErr : Option ε) :
    ((body original).1.status = original.status →
      reconcileStatusTail original body (.ok original) storeErr =
        ([], (body original).2))
    ∧ ((body original).1.status ≠ original.status →
      (reconcileStatusTail original body (.ok original) storeErr).1 =
        [.updateStatus ⟨original.rest, (body original).1.status⟩]
      ∧ (∀ e, storeErr = some e →
          (reconcileStatusTail original body (.ok original) storeErr).2 = some e)
      ∧ (storeErr = none →
          (reconcileStatusTail original body (.ok original) storeErr).2 =
            (body original).2)) := by
  constructor
  · intro heq
    rw [reconcileStatusTail]
    simp [heq.symm]
  · intro hne
    have hne2 : original.status ≠ (body original).1.status := fun h => hne h.symm
    refine ⟨?_, ?_, ?_⟩
    · rw [reconcileStatusTail]
      simp only [if_neg hne2, updateStatus, if_neg hne2]
      cases storeErr <;> rfl
    · rintro e rfl
      rw [reconcileStatusTail]
      simp only [if_neg hne2, updateStatus, if_neg hne2]
    · rintro rfl
      rw [reconcileStatusTail]
      simp only [if_neg hne2, updateStatus, if_neg hne2]

/-- Concrete instantiation of `reconcile_status_write_suppression`: an
unchanged-status body issues no write; a changed-status body issues one
write whose failure is propagated. -/
theorem reconcile_status_write_suppression_witness :
    (((fun o => (o, (none : Option Nat))) (⟨5, 0⟩ : KObj Nat Nat)).1.status =
        (⟨5, 0⟩ : KObj Nat Nat).status
      ∧ reconcileStatusTail (⟨5, 0⟩ : KObj Nat Nat) (fun o => (o, none))
          (.ok ⟨5, 0⟩) (some 7) = ([], none))
    ∧ (((fun _ => ((⟨5, 1⟩ : KObj Nat Nat), (none : Option Nat))) (⟨5, 0⟩ : KObj Nat Nat)).1.status ≠
        (⟨5, 0⟩ : KObj Nat Nat).status
      ∧ (reconcileStatusTail (⟨5, 0⟩ : KObj Nat Nat) (fun _ => (⟨5, 1⟩, none))
          (.ok ⟨5, 0⟩) (some 7)).1 = [.updateStatus ⟨5, 1⟩]
      ∧ (reconcileStatusTail (⟨5, 0⟩ : KObj Nat Nat) (fun _ => (⟨5, 1⟩, none))
          (.ok ⟨5, 0⟩) (some 7)).2 = some 7) := by
  refine ⟨⟨rfl, ?_⟩, ⟨by decide, ?_, ?_⟩⟩
  · exact (reconcile_status_write_suppression (⟨5, 0⟩ : KObj Nat Nat)
      (fun o => (o, none)) (some 7)).1 rfl
  · exact ((reconcile_status_write_suppression (⟨5, 0⟩ : KObj Nat Nat)
      (fun _ => (⟨5, 1⟩, none)) (some 7)).2 (by decide)).1
  · exact ((reconcile_status_write_suppression (⟨5, 0⟩ : KObj Nat Nat)
      (fun _ => (⟨5, 1⟩, none)) (some 7)).2 (by decide)).2.1 7 rfl

/-! ## ClusterIngress reconciler model (`src/unnamed/part_006`, both
variants).  Store calls and tracker calls are recorded as an event trace;
the environment supplies lister contents and store verdicts. -/

/-- The finalizer token `clusteringresses.networking.internal.knative.dev`
(`v1alpha1.Resource("clusteringresses").String()`). -/
def clusterIngressFinalizer : Str :=
  "clusteringresses.networking.internal.knative.dev".data

/-- One entry of `ClusterIngressSpec.TLS`. -/
structure ClusterIngressTLS where
  hosts : List Str
  secretNamespace : Str
  secretName : Str
  deriving DecidableEq

/-- The fields of a `v1alpha1.ClusterIngress` used by the deletion and
gateway paths. -/
structure ClusterIngress where
  name : Str
  finalizers : List Str
  resourceVersion : Str
  isPublic : Bool
  tls : List ClusterIngressTLS
  deriving DecidableEq

/-- Modelled from the spec: a TLS server entry of the shared gateway,
tagged with the identity of the owning ClusterIngress (the
`istio v1alpha3.Server` built by the `resources` package, whose source
file is not in the tree). -/
structure Server where
  owner : Str
  host : Str
  deriving DecidableEq

/-- An `istio v1alpha3.Gateway` (the shared singleton resource). -/
structure Gateway where
  name : Str
  ns : Str
  servers : List Server
  deriving DecidableEq

/-- Modelled from the spec: `resources.GetServers` selects the server
entries of the shared gateway tagged with the given ClusterIngress. -/
def GetServers (gw : Gateway) (ci : ClusterIngress) : List Server :=
  gw.servers.filter (fun s => s.owner == ci.name)

/-- Modelled from the spec: `resources.MakeServers` builds the
owner-tagged server entries a ClusterIngress contributes, one per TLS
entry. -/
def MakeServers (ci : ClusterIngress) : List Server :=
  ci.tls.map (fun t => { owner := ci.name, host := t.secretName })

/-- Modelled from the spec: `resources.UpdateGateway` replaces exactly
the calling owner's entries (`existing`) with `want`, preserving entries
of other owners verbatim. -/
def UpdateGateway (gw : Gateway) (want existing : List Server) : Gateway :=
  { gw with servers := gw.servers.filter (fun s => !(existing.contains s)) ++ want }

/-- A replica (or origin) `corev1.Secret`, with the owner and origin
back-reference labels used by `MakeSecretSelector` and
`deleteUnusedSecrets`. -/
structure SecretObj where
  ns : Str
  name : Str
  ingressLabel : Str
  originNamespace : Str
  originName : Str
  data : Str
  deriving DecidableEq

/-- Errors surfaced by the reconciler. -/
inductive Err
  | store (msg : Str)
  | notOwned (kind parent child : Str)
  deriving DecidableEq

/-- One observable action of the clusteringress reconciler: mutual
exclusion, reads and writes of the shared gateway, child-object store
calls, tracker registrations, and writes against the owner itself
(full `Update` versus metadata merge `Patch`). -/
inductive CIEvent
  | lockAcquire
  | lockRelease
  | gatewayRead (name : Str)
  | gatewayWrite (gw : Gateway)
  | vsCreate (ns name : Str)
  | vsUpdate (ns name : Str)
  | secretCreate (ns name : Str)
  | secretUpdate (ns name : Str)
  | secretDelete (ns name : Str)
  | track (ns name : Str)
  | untrack (ns name : Str)
  | ciUpdate (finalizers : List Str)
  | ciPatch (finalizers : List Str)
  deriving DecidableEq

/-- Result of a reconcile step: clean return, returned error, or Go
runtime panic. -/
inductive Outcome
  | ok
  | err (e : Err)
  | panic
  deriving DecidableEq

/-- Result of a lister `Get`. -/
inductive GetResult (α : Type)
  | notFound
  | getErr (e : Err)
  | found (a : α)
  deriving DecidableEq

/-- Environment of a clusteringress reconcile: the Istio config snapshot,
lister contents, and the store's verdict on each write. -/
structure CIEnv where
  cfg : IstioConfig
  gatewayGet : Str → Except Err Gateway
  gatewayUpdateResult : Gateway → Option Err
  secretGet : Str → Str → GetResult SecretObj
  secretCreateResult : SecretObj → Option Err
  secretUpdateResult : SecretObj → Option Err
  secretsList : Str → Except Err (List SecretObj)
  secretDeleteResult : Str → Str → Option Err
  ciUpdateResult : ClusterIngress → Option Err
  ciPatchResult : Option Err

/-- Go `gatewayNamesFromContext`: the configured public or private
gateway names, deduplicated preserving order. -/
def gatewayNamesFromContext (cfg : IstioConfig) (ci : ClusterIngress) : List Str :=
  dedup (if ci.isPublic then cfg.ingressGateways.map (fun gw => gw.gatewayName)
         else cfg.localGateways.map (fun gw => gw.gatewayName))

/-- Go `reconcileGateway` (second variant, lines 1020–1044 — no mutex):
read the gateway, select the owner's existing entries, return with no
write if they already deep-equal the desired ones, otherwise deep-copy,
splice in the desired entries and issue the gateway `Update`. -/
def reconcileGatewayV2 (env : CIEnv) (ci : ClusterIngress) (gatewayName : Str)
    (desired : List Server) : List CIEvent × Option Err :=
  match env.gatewayGet gatewayName with
  | .error e => ([.gatewayRead gatewayName], some e)
  | .ok gateway =>
    let existing := GetServers gateway ci
    if existing = desired then ([.gatewayRead gatewayName], none)
    else
      let copy := UpdateGateway gateway desired existing
      ([.gatewayRead gatewayName, .gatewayWrite copy], env.gatewayUpdateResult copy)

/-- Go `reconcileGateways` (second variant): converge each configured
gateway in order, stopping at the first error. -/
def reconcileGatewaysV2 (env : CIEnv) (ci : ClusterIngress) :
    List Str → List Server → List CIEvent × Option Err
  | [], _ => ([], none)
  | g :: rest, desired =>
    let r := reconcileGatewayV2 env ci g desired
    match r.2 with
    | some e => (r.1, some e)
    | none =>
      let r2 := reconcileGatewaysV2 env ci rest desired
      (r.1 ++ r2.1, r2.2)

/-- Go `reconcileGateway` (first variant, lines 428–462): its body is
textually the same read-modify-write cycle as the second variant (hence
expressed through it), computing the desired entries itself
(`MakeServers` unless deleting), with the whole cycle bracketed by the
reconciler's process-wide mutex (`c.mutex.Lock()` and a deferred
unlock). -/
def reconcileGatewayV1 (env : CIEnv) (ci : ClusterIngress) (gatewayName : Str)
    (deletesClusterIngress : Bool) : List CIEvent × Option Err :=
  (.lockAcquire ::
      ((reconcileGatewayV2 env ci gatewayName
          (if deletesClusterIngress then [] else MakeServers ci)).1
        ++ [.lockRelease]),
   (reconcileGatewayV2 env ci gatewayName
      (if deletesClusterIngress then [] else MakeServers ci)).2)

/-- Go `reconcileGateways` (first variant). -/
def reconcileGatewaysV1 (env : CIEnv) (ci : ClusterIngress)
    (deletesClusterIngress : Bool) : List Str → List CIEvent × Option Err
  | [] => ([], none)
  | g :: rest =>
    let r := reconcileGatewayV1 env ci g deletesClusterIngress
    match r.2 with
    | some e => (r.1, some e)
    | none =>
      let r2 := reconcileGatewaysV1 env ci deletesClusterIngress rest
      (r.1 ++ r2.1, r2.2)

/-- Go `reconcileCertSecret` (second variant, lines 1058–1091): track the
replica and its origin, then get the replica; create it when absent,
skip when its `Data` deep-equals the desired data, otherwise deep-copy
and update only `Data`.  No ownership check is performed. -/
def reconcileCertSecretV2 (env : CIEnv) (ci : ClusterIngress)
    (desired : SecretObj) : List CIEvent × Option Err :=
  let tracks := [CIEvent.track desired.ns desired.name,
                 CIEvent.track desired.originNamespace desired.originName]
  match env.secretGet desired.ns desired.name with
  | .notFound =>
    (tracks ++ [.secretCreate desired.ns desired.name], env.secretCreateResult desired)
  | .getErr e => (tracks, some e)
  | .found existing =>
    if existing.data = desired.data then (tracks, none)
    else
      let copy := { existing with data := desired.data }
      (tracks ++ [.secretUpdate copy.ns copy.name], env.secretUpdateResult copy)

/-- The per-desired-secret loop of `reconcileCertSecrets` (second
variant). -/
def certSecretsLoop (env : CIEnv) (ci : ClusterIngress) :
    List SecretObj → List CIEvent × Option Err
  | [] => ([], none)
  | d :: rest =>
    let r := reconcileCertSecretV2 env ci d
    match r.2 with
    | some e => (r.1, some e)
    | none =>
      let r2 := certSecretsLoop env ci rest
      (r.1 ++ r2.1, r2.2)

/-- The inner loop of `deleteUnusedSecrets`: for each listed replica not
among the desired keys, untrack it and its origin and delete it. -/
def deleteSecretsLoop (env : CIEnv) (desiredKeys : List (Str × Str)) :
    List SecretObj → List CIEvent × Option Err
  | [] => ([], none)
  | s :: rest =>
    if (s.ns, s.name) ∈ desiredKeys then deleteSecretsLoop env desiredKeys rest
    else
      let evs := [CIEvent.untrack s.ns s.name,
                  CIEvent.untrack s.originNamespace s.originName,
                  CIEvent.secretDelete s.ns s.name]
      match env.secretDeleteResult s.ns s.name with
      | some e => (evs, some e)
      | none =>
        let r := deleteSecretsLoop env desiredKeys rest
        (evs ++ r.1, r.2)

/-- The per-namespace loop of `deleteUnusedSecrets`: list this owner's
replicas (by the `MakeSecretSelector` label) in each gateway-service
namespace and clean the undesired ones. -/
def deleteUnusedSecretsNs (env : CIEnv) (ci : ClusterIngress)
    (desiredKeys : List (Str × Str)) : List Str → List CIEvent × Option Err
  | [] => ([], none)
  | ns :: rest =>
    match env.secretsList ns with
    | .error e => ([], some e)
    | .ok secrets =>
      let owned := secrets.filter (fun s => s.ingressLabel == ci.name)
      let r := deleteSecretsLoop env desiredKeys owned
      match r.2 with
      | some e => (r.1, some e)
      | none =>
        let r2 := deleteUnusedSecretsNs env ci desiredKeys rest
        (r.1 ++ r2.1, r2.2)

/-- Go `deleteUnusedSecrets` (second variant, lines 1093–1122); the
gateway-service-namespace computation can panic (`GetGatewaySvcNamespaces`
on a dotless service URL). -/
def deleteUnusedSecrets (env : CIEnv) (ci : ClusterIngress)
    (desiredSecrets : List SecretObj) : List CIEvent × Outcome :=
  let desiredKeys := desiredSecrets.map (fun s => (s.ns, s.name))
  match GetGatewaySvcNamespaces env.cfg with
  | none => ([], .panic)
  | some nss =>
    let r := deleteUnusedSecretsNs env ci desiredKeys nss
    match r.2 with
    | some e => (r.1, .err e)
    | none => (r.1, .ok)

/-- Go `reconcileCertSecrets` (second variant, lines 1046–1056): converge
each desired replica secret, then delete the unused ones. -/
def reconcileCertSecretsV2 (env : CIEnv) (ci : ClusterIngress)
    (desiredSecrets : List SecretObj) : List CIEvent × Outcome :=
  let r := certSecretsLoop env ci desiredSecrets
  match r.2 with
  | some e => (r.1, .err e)
  | none =>
    let d := deleteUnusedSecrets env ci desiredSecrets
    (r.1 ++ d.1, d.2)

/-- Go `ensureFinalizer` (lines 959–980): when the token is absent, add
it and issue a metadata merge **patch** with the sorted finalizer set
(`sets.String.List()` returns the sorted list). -/
def ensureFinalizer (env : CIEnv) (ci : ClusterIngress) : List CIEvent × Option Err :=
  if clusterIngressFinalizer ∈ ci.finalizers then ([], none)
  else
    ([.ciPatch (sortStrings (dedup (clusterIngressFinalizer :: ci.finalizers)))],
     env.ciPatchResult)

/-- Go `reconcileDeletion` (second variant, lines 982–1009): return
immediately unless our finalizer is the **first** finalizer; otherwise
delete the owner's servers from every gateway, then (when gateway
reconciliation is enabled) clean the replica secrets, and finally remove
the first finalizer and issue a full `Update` of the owner. -/
def reconcileDeletionV2 (env : CIEnv) (enableReconcilingGateway : Bool)
    (ci : ClusterIngress) : List CIEvent × Outcome :=
  if ci.finalizers.head? = some clusterIngressFinalizer then
    let g := reconcileGatewaysV2 env ci (gatewayNamesFromContext env.cfg ci) []
    match g.2 with
    | some e => (g.1, .err e)
    | none =>
      let s : List CIEvent × Outcome :=
        if enableReconcilingGateway then reconcileCertSecretsV2 env ci []
        else ([], .ok)
      match s.2 with
      | .err e => (g.1 ++ s.1, .err e)
      | .panic => (g.1 ++ s.1, .panic)
      | .ok =>
        let tr := g.1 ++ s.1 ++ [CIEvent.ciUpdate ci.finalizers.tail]
        match env.ciUpdateResult { ci with finalizers := ci.finalizers.tail } with
        | some e => (tr, .err e)
        | none => (tr, .ok)
  else ([], .ok)

/-- Go `reconcileDeletion` (first variant, lines 390–417): the same
guard; delete the servers from every gateway (under the mutex), untrack
each TLS origin secret, then remove the first finalizer and issue a full
`Update`.  No replica-secret deletion is performed in this variant. -/
def reconcileDeletionV1 (env : CIEnv) (ci : ClusterIngress) :
    List CIEvent × Outcome :=
  if ci.finalizers.head? = some clusterIngressFinalizer then
    let g := reconcileGatewaysV1 env ci true (gatewayNamesFromContext env.cfg ci)
    match g.2 with
    | some e => (g.1, .err e)
    | none =>
      let untracks := ci.tls.map
        (fun t => CIEvent.untrack t.secretNamespace t.secretName)
      let tr := g.1 ++ untracks ++ [CIEvent.ciUpdate ci.finalizers.tail]
      match env.ciUpdateResult { ci with finalizers := ci.finalizers.tail } with
      | some e => (tr, .err e)
      | none => (tr, .ok)
  else ([], .ok)

/-! ### Event classification and trace lemmas -/

/-- Reads or writes of the shared gateway object. -/
def isGatewayEv : CIEvent → Bool
  | .gatewayRead _ => true
  | .gatewayWrite _ => true
  | _ => false

/-- Deletion calls for replica secrets. -/
def isSecretDeleteEv : CIEvent → Bool
  | .secretDelete _ _ => true
  | _ => false

/-- Writes against the owner object itself (finalizer update or patch). -/
def isOwnerWriteEv : CIEvent → Bool
  | .ciUpdate _ => true
  | .ciPatch _ => true
  | _ => false

/-- Metadata merge patches against the owner object. -/
def isOwnerPatchEv : CIEvent → Bool
  | .ciPatch _ => true
  | _ => false

/-- Mutex acquire/release events. -/
def isLockEv : CIEvent → Bool
  | .lockAcquire => true
  | .lockRelease => true
  | _ => false

theorem gatewayEv_classes {ev : CIEvent} (h : isGatewayEv ev = true) :
    isSecretDeleteEv ev = false ∧ isOwnerWriteEv ev = false := by
  cases ev <;> simp_all [isGatewayEv, isSecretDeleteEv, isOwnerWriteEv]

theorem reconcileGatewayV2_events (env : CIEnv) (ci : ClusterIngress)
    (g : Str) (d : List Server) :
    ∀ ev ∈ (reconcileGatewayV2 env ci g d).1, isGatewayEv ev = true := by
  intro ev hev
  rw [reconcileGatewayV2] at hev
  rcases henv : env.gatewayGet g with e | gw <;> rw [henv] at hev
  · simp at hev
    simp [hev, isGatewayEv]
  · simp only at hev
    split at hev <;> simp at hev <;>
      rcases hev with rfl | rfl <;> simp [isGatewayEv]

theorem reconcileGatewaysV2_events (env : CIEnv) (ci : ClusterIngress)
    (gs : List Str) (d : List Server) :
    ∀ ev ∈ (reconcileGatewaysV2 env ci gs d).1, isGatewayEv ev = true := by
  induction gs with
  | nil => intro ev hev; simp [reconcileGatewaysV2] at hev
  | cons g rest ih =>
    intro ev hev
    rw [reconcileGatewaysV2] at hev
    rcases hr : (reconcileGatewayV2 env ci g d).2 with _ | e <;>
      simp only [hr] at hev
    · rcases List.mem_append.mp hev with h | h
      · exact reconcileGatewayV2_events env ci g d ev h
      · exact ih ev h
    · exact reconcileGatewayV2_events env ci g d ev hev

theorem reconcileCertSecretV2_events (env : CIEnv) (ci : ClusterIngress)
    (d : SecretObj) :
    ∀ ev ∈ (reconcileCertSecretV2 env ci d).1,
      isGatewayEv ev = false ∧ isOwnerWriteEv ev = false ∧ isLockEv ev = false := by
  intro ev hev
  rw [reconcileCertSecretV2] at hev
  rcases henv : env.secretGet d.ns d.name with _ | e | ex <;>
    rw [henv] at hev <;> simp at hev
  · rcases hev with rfl | rfl | rfl <;>
      simp [isGatewayEv, isOwnerWriteEv, isLockEv]
  · rcases hev with rfl | rfl <;>
      simp [isGatewayEv, isOwnerWriteEv, isLockEv]
  · split at hev <;> simp at hev
    · rcases hev with rfl | rfl <;>
        simp [isGatewayEv, isOwnerWriteEv, isLockEv]
    · rcases hev with rfl | rfl | rfl <;>
        simp [isGatewayEv, isOwnerWriteEv, isLockEv]

theorem certSecretsLoop_events (env : CIEnv) (ci : ClusterIngress)
    (ds : List SecretObj) :
    ∀ ev ∈ (certSecretsLoop env ci ds).1,
      isGatewayEv ev = false ∧ isOwnerWriteEv ev = false ∧ isLockEv ev = false := by
  induction ds with
  | nil => intro ev hev; simp [certSecretsLoop] at hev
  | cons d rest ih =>
    intro ev hev
    rw [certSecretsLoop] at hev
    rcases hr : (reconcileCertSecretV2 env ci d).2 with _ | e <;>
      simp only [hr] at hev
    · rcases List.mem_append.mp hev with h | h
      · exact reconcileCertSecretV2_events env ci d ev h
      · exact ih ev h
    · exact reconcileCertSecretV2_events env ci d ev hev

theorem deleteSecretsLoop_events (env : CIEnv) (keys : List (Str × Str))
    (ss : List SecretObj) :
    ∀ ev ∈ (deleteSecretsLoop env keys ss).1,
      isGatewayEv ev = false ∧ isOwnerWriteEv ev = false ∧ isLockEv ev = false := by
  induction ss with
  | nil => intro ev hev; simp [deleteSecretsLoop] at hev
  | cons s rest ih =>
    intro ev hev
    rw [deleteSecretsLoop] at hev
    split at hev
    · exact ih ev hev
    · rcases hr : env.secretDeleteResult s.ns s.name with _ | e <;>
        simp only [hr] at hev <;> simp at hev
      · rcases hev with rfl | rfl | rfl | h
        · simp [isGatewayEv, isOwnerWriteEv, isLockEv]
        · simp [isGatewayEv, isOwnerWriteEv, isLockEv]
        · simp [isGatewayEv, isOwnerWriteEv, isLockEv]
        · exact ih ev h
      · rcases hev with rfl | rfl | rfl <;>
          simp [isGatewayEv, isOwnerWriteEv, isLockEv]

theorem deleteUnusedSecretsNs_events (env : CIEnv) (ci : ClusterIngress)
    (keys : List (Str × Str)) (nss : List Str) :
    ∀ ev ∈ (deleteUnusedSecretsNs env ci keys nss).1,
      isGatewayEv ev = false ∧ isOwnerWriteEv ev = false ∧ isLockEv ev = false := by
  induction nss with
  | nil => intro ev hev; simp [deleteUnusedSecretsNs] at hev
  | cons ns rest ih =>
    intro ev hev
    rw [deleteUnusedSecretsNs] at hev
    rcases hl : env.secretsList ns with e | secrets <;> rw [hl] at hev
    · simp at hev
    · simp only at hev
      rcases hr : (deleteSecretsLoop env keys
          (secrets.filter (fun s => s.ingressLabel == ci.name))).2 with _ | e <;>
        simp only [hr] at hev
      · rcases List.mem_append.mp hev with h | h
        · exact deleteSecretsLoop_events env keys _ ev h
        · exact ih ev h
      · exact deleteSecretsLoop_events env keys _ ev hev

theorem deleteUnusedSecrets_events (env : CIEnv) (ci : ClusterIngress)
    (ds : List SecretObj) :
    ∀ ev ∈ (deleteUnusedSecrets env ci ds).1,
      isGatewayEv ev = false ∧ isOwnerWriteEv ev = false ∧ isLockEv ev = false := by
  intro ev hev
  rw [deleteUnusedSecrets] at hev
  rcases hn : GetGatewaySvcNamespaces env.cfg with _ | nss <;> rw [hn] at hev
  · simp at hev
  · simp only at hev
    rcases hr : (deleteUnusedSecretsNs env ci (ds.map (fun s => (s.ns, s.name))) nss).2
        with _ | e <;> simp only [hr] at hev <;>
      exact deleteUnusedSecretsNs_events env ci _ nss ev hev

theorem reconcileCertSecretsV2_events (env : CIEnv) (ci : ClusterIngress)
    (ds : List SecretObj) :
    ∀ ev ∈ (reconcileCertSecretsV2 env ci ds).1,
      isGatewayEv ev = false ∧ isOwnerWriteEv ev = false ∧ isLockEv ev = false := by
  intro ev hev
  rw [reconcileCertSecretsV2] at hev
  rcases hr : (certSecretsLoop env ci ds).2 with _ | e <;> simp only [hr] at hev
  · rcases List.mem_append.mp hev with h | h
    · exact certSecretsLoop_events env ci ds ev h
    · exact deleteUnusedSecrets_events env ci ds ev h
  · exact certSecretsLoop_events env ci ds ev hev

theorem reconcileGatewayV1_events (env : CIEnv) (ci : ClusterIngress)
    (g : Str) (del : Bool) :
    ∀ ev ∈ (reconcileGatewayV1 env ci g del).1,
      isGatewayEv ev = true ∨ isLockEv ev = true := by
  intro ev hev
  rw [reconcileGatewayV1] at hev
  simp only [List.mem_cons, List.mem_append, List.mem_singleton] at hev
  rcases hev with rfl | hev | rfl | h
  · exact Or.inr rfl
  · exact Or.inl (reconcileGatewayV2_events env ci g _ ev hev)
  · exact Or.inr rfl
  · simp at h

theorem reconcileGatewaysV1_events (env : CIEnv) (ci : ClusterIngress)
    (del : Bool) (gs : List Str) :
    ∀ ev ∈ (reconcileGatewaysV1 env ci del gs).1,
      isGatewayEv ev = true ∨ isLockEv ev = true := by
  induction gs with
  | nil => intro ev hev; simp [reconcileGatewaysV1] at hev
  | cons g rest ih =>
    intro ev hev
    rw [reconcileGatewaysV1] at hev
    rcases hr : (reconcileGatewayV1 env ci g del).2 with _ | e <;>
      simp only [hr] at hev
    · rcases List.mem_append.mp hev with h | h
      · exact reconcileGatewayV1_events env ci g del ev h
      · exact ih ev h
    · exact reconcileGatewayV1_events env ci g del ev hev

/-- If a trace factors into a block of gateway events followed by a block
of non-gateway events, every gateway event strictly precedes every
secret-deletion call. -/
theorem gateway_before_delete_of_append {tr G R : List CIEvent}
    (h : tr = G ++ R) (hG : ∀ ev ∈ G, isGatewayEv ev = true)
    (hR : ∀ ev ∈ R, isGatewayEv ev = false) :
    ∀ i j ei ej, tr.get? i = some ei → tr.get? j = some ej →
      isGatewayEv ei = true → isSecretDeleteEv ej = true → i < j := by
  subst h
  intro i j ei ej hi hj hgi hdj
  by_cases hjG : j < G.length
  · rw [List.get?_append hjG] at hj
    have hmem : ej ∈ G := List.get?_mem hj
    have h2 := (gatewayEv_classes (hG ej hmem)).1
    rw [h2] at hdj
    cases hdj
  · by_cases hiG : i < G.length
    · omega
    · push_neg at hiG
      rw [List.get?_append_right hiG] at hi
      have hmem : ei ∈ R := List.get?_mem hi
      rw [hR ei hmem] at hgi
      cases hgi

/-- The trace of the second-variant deletion path is a block of gateway
events followed by a block of non-gateway events; moreover when the
gateway cleanup errors nothing follows the gateway block. -/
theorem reconcileDeletionV2_shape (env : CIEnv) (b : Bool) (ci : ClusterIngress) :
    ∃ G R, (reconcileDeletionV2 env b ci).1 = G ++ R
      ∧ (∀ ev ∈ G, isGatewayEv ev = true)
      ∧ (∀ ev ∈ R, isGatewayEv ev = false)
      ∧ ((reconcileGatewaysV2 env ci (gatewayNamesFromContext env.cfg ci) []).2 ≠ none →
          R = []) := by
  have hG := reconcileGatewaysV2_events env ci (gatewayNamesFromContext env.cfg ci) []
  have hs : ∀ ev ∈ (if b then reconcileCertSecretsV2 env ci []
      else (([], .ok) : List CIEvent × Outcome)).1, isGatewayEv ev = false := by
    cases b with
    | true =>
      intro ev hev
      exact (reconcileCertSecretsV2_events env ci [] ev (by simpa using hev)).1
    | false => intro ev hev; simp at hev
  rw [reconcileDeletionV2]
  by_cases hguard : ci.finalizers.head? = some clusterIngressFinalizer
  · rw [if_pos hguard]
    rcases hg : (reconcileGatewaysV2 env ci (gatewayNamesFromContext env.cfg ci) []).2
        with _ | e
    · simp only [hg]
      rcases hsout : (if b then reconcileCertSecretsV2 env ci []
          else (([], .ok) : List CIEvent × Outcome)).2 with _ | e2 | _
      · simp only [hsout]
        rcases hu : env.ciUpdateResult { ci with finalizers := ci.finalizers.tail }
            with _ | e3 <;> simp only [hu]
        · refine ⟨_, _, List.append_assoc _ _ _, hG, ?_, fun hne => absurd rfl hne⟩
          intro ev hev
          rcases List.mem_append.mp hev with h | h
          · exact hs ev h
          · simp at h
            simp [h, isGatewayEv]
        · refine ⟨_, _, List.append_assoc _ _ _, hG, ?_, fun hne => absurd rfl hne⟩
          intro ev hev
          rcases List.mem_append.mp hev with h | h
          · exact hs ev h
          · simp at h
            simp [h, isGatewayEv]
      · simp only [hsout]
        exact ⟨_, _, rfl, hG, hs, fun hne => absurd rfl hne⟩
      · simp only [hsout]
        exact ⟨_, _, rfl, hG, hs, fun hne => absurd rfl hne⟩
    · simp only [hg]
      exact ⟨_, [], (List.append_nil _).symm, hG, by simp, fun _ => rfl⟩
  · rw [if_neg hguard]
    exact ⟨[], [], rfl, by simp, by simp, fun _ => rfl⟩

theorem lockEv_classes {ev : CIEvent} (h : isLockEv ev = true) :
    isSecretDeleteEv ev = false ∧ isGatewayEv ev = false ∧ isOwnerWriteEv ev = false := by
  cases ev <;> simp_all [isLockEv, isSecretDeleteEv, isGatewayEv, isOwnerWriteEv]

/-- The first-variant deletion path never issues a secret deletion. -/
theorem reconcileDeletionV1_no_secretDelete (env : CIEnv) (ci : ClusterIngress) :
    ∀ ev ∈ (reconcileDeletionV1 env ci).1, isSecretDeleteEv ev = false := by
  intro ev hev
  simp only [reconcileDeletionV1] at hev
  split at hev
  · split at hev
    · rcases reconcileGatewaysV1_events env ci true _ ev hev with h | h
      · exact (gatewayEv_classes h).1
      · exact (lockEv_classes h).1
    · split at hev <;>
      · simp only [List.mem_append] at hev
        rcases hev with (hev | hev) | hev
        · rcases reconcileGatewaysV1_events env ci true _ ev hev with h | h
          · exact (gatewayEv_classes h).1
          · exact (lockEv_classes h).1
        · rcases List.mem_map.mp hev with ⟨t, _, rfl⟩
          rfl
        · rw [List.mem_singleton] at hev
          subst hev
          rfl
  · simp at hev

/-- C3: in the finalizer-gated ClusterIngress deletion path, the owner's
tagged server entries are removed from the gateways strictly before any
deletion call for the owner's replica secrets: every gateway read/write
event precedes every secret-delete event in the second variant's trace, a
gateway-cleanup error returns before any secret deletion, and the first
variant issues no secret deletion at all. -/
theorem deletion_gateway_cleanup_before_secret_delete (env : CIEnv) (b : Bool)
    (ci : ClusterIngress) :
    (∀ i j ei ej, (reconcileDeletionV2 env b ci).1.get? i = some ei →
        (reconcileDeletionV2 env b ci).1.get? j = some ej →
        isGatewayEv ei = true → isSecretDeleteEv ej = true → i < j)
    ∧ (∀ e, (reconcileGatewaysV2 env ci (gatewayNamesFromContext env.cfg ci) []).2 =
          some e →
        ∀ ev ∈ (reconcileDeletionV2 env b ci).1, isSecretDeleteEv ev = false)
    ∧ (∀ ev ∈ (reconcileDeletionV1 env ci).1, isSecretDeleteEv ev = false) := by
  obtain ⟨G, R, htr, hG, hR, hRerr⟩ := reconcileDeletionV2_shape env b ci
  refine ⟨gateway_before_delete_of_append htr hG hR, ?_,
    reconcileDeletionV1_no_secretDelete env ci⟩
  intro e he ev hev
  have hRnil : R = [] := hRerr (by rw [he]; simp)
  rw [htr, hRnil, List.append_nil] at hev
  exact (gatewayEv_classes (hG ev hev)).1

/-! ### Concrete scenario used by witnesses and counterexamples -/

/-- A config with one ingress gateway whose service URL has `ns1` as its
second label. -/
def demoCfg : IstioConfig := ⟨[⟨"gw".data, "svc.ns1.local".data⟩], []⟩

/-- A replica secret owned (by label) by ClusterIngress `ci1`. -/
def demoSecret : SecretObj :=
  ⟨"ns1".data, "sec1".data, "ci1".data, "ons".data, "on".data, "d".data⟩

/-- A gateway carrying one server entry tagged with owner `ci1`. -/
def demoGateway : Gateway := ⟨"gw".data, "ns".data, [⟨"ci1".data, "s1".data⟩]⟩

/-- An environment in which every store call succeeds: the gateway above,
and one leftover replica secret of `ci1`. -/
def demoEnv : CIEnv :=
  { cfg := demoCfg
    gatewayGet := fun _ => .ok demoGateway
    gatewayUpdateResult := fun _ => none
    secretGet := fun _ _ => .notFound
    secretCreateResult := fun _ => none
    secretUpdateResult := fun _ => none
    secretsList := fun _ => .ok [demoSecret]
    secretDeleteResult := fun _ _ => none
    ciUpdateResult := fun _ => none
    ciPatchResult := none }

/-- The same environment with a failing gateway lister. -/
def demoEnvGwErr : CIEnv :=
  { demoEnv with gatewayGet := fun _ => .error (.store "boom".data) }

/-- A ClusterIngress whose finalizer list starts with the well-known
token. -/
def demoCI : ClusterIngress :=
  ⟨"ci1".data, [clusterIngressFinalizer], "rv".data, true, []⟩

/-- Concrete instantiation of
`deletion_gateway_cleanup_before_secret_delete`: in the concrete deletion
trace the gateway write (index 1) precedes the secret delete (index 4);
under a failing gateway lister no event of the resulting trace is a
secret deletion; and no event of the first-variant trace is either. -/
theorem deletion_gateway_cleanup_before_secret_delete_witness :
    ((1 : Nat) < 4)
    ∧ isSecretDeleteEv (CIEvent.gatewayRead "gw".data) = false
    ∧ isSecretDeleteEv CIEvent.lockAcquire = false := by
  refine ⟨?_, ?_, ?_⟩
  · exact (deletion_gateway_cleanup_before_secret_delete demoEnv true demoCI).1
      1 4 (CIEvent.gatewayWrite ⟨"gw".data, "ns".data, []⟩)
      (CIEvent.secretDelete "ns1".data "sec1".data)
      (by decide) (by decide) (by decide) (by decide)
  · exact (deletion_gateway_cleanup_before_secret_delete demoEnvGwErr true demoCI).2.1
      (.store "boom".data) (by decide) (CIEvent.gatewayRead "gw".data) (by decide)
  · exact (deletion_gateway_cleanup_before_secret_delete demoEnv true demoCI).2.2
      CIEvent.lockAcquire (by decide)

/-- A ClusterIngress carrying the well-known finalizer token, but not in
first position. -/
def demoCITokenSecond : ClusterIngress :=
  ⟨"ci1".data, ["aaa".data, clusterIngressFinalizer], "rv".data, true, []⟩

/-- C7 counterexample: a ClusterIngress whose finalizer list contains the
well-known token in second position.  The token is present, yet both
deletion-path variants return immediately with no cleanup action and no
finalizer removal (in an environment where cleanup would have removed a
server entry and a replica secret) — refuting the claim that the early
return happens if and only if the token is **not present**. -/
theorem reconcileDeletion_token_not_first_cex :
    clusterIngressFinalizer ∈ demoCITokenSecond.finalizers
    ∧ reconcileDeletionV2 demoEnv true demoCITokenSecond = ([], .ok)
    ∧ reconcileDeletionV1 demoEnv demoCITokenSecond = ([], .ok) :=
  ⟨by decide, by decide, by decide⟩

/-- C7 (amended): both deletion-path variants return immediately with no
action exactly when the well-known token is not the **first** finalizer;
when it is first, the cleanup path runs — the result is never the empty
clean return, and a gateway-cleanup error is propagated. -/
theorem reconcileDeletion_guard_token_first (env : CIEnv) (b : Bool)
    (ci : ClusterIngress) :
    (ci.finalizers.head? ≠ some clusterIngressFinalizer →
      reconcileDeletionV2 env b ci = ([], .ok)
      ∧ reconcileDeletionV1 env ci = ([], .ok))
    ∧ (ci.finalizers.head? = some clusterIngressFinalizer →
      reconcileDeletionV2 env b ci ≠ ([], .ok)
      ∧ reconcileDeletionV1 env ci ≠ ([], .ok)
      ∧ ∀ e, (reconcileGatewaysV2 env ci (gatewayNamesFromContext env.cfg ci) []).2 =
          some e → (reconcileDeletionV2 env b ci).2 = .err e) := by
  constructor
  · intro h
    exact ⟨by rw [reconcileDeletionV2, if_neg h], by rw [reconcileDeletionV1, if_neg h]⟩
  · intro h
    refine ⟨?_, ?_, ?_⟩
    · rw [reconcileDeletionV2, if_pos h]
      rcases hg : (reconcileGatewaysV2 env ci (gatewayNamesFromContext env.cfg ci) []).2
          with _ | e
      · simp only [hg]
        rcases hs : (if b then reconcileCertSecretsV2 env ci []
            else (([], .ok) : List CIEvent × Outcome)).2 with _ | e2 | _ <;>
          simp only [hs]
        · rcases hu : env.ciUpdateResult { ci with finalizers := ci.finalizers.tail }
              with _ | e3 <;> simp only [hu]
          · intro hcontra
            have h1 := congrArg Prod.fst hcontra
            simp at h1
          · intro hcontra
            have h2 := congrArg Prod.snd hcontra
            simp at h2
        · intro hcontra
          have h2 := congrArg Prod.snd hcontra
          simp at h2
        · intro hcontra
          have h2 := congrArg Prod.snd hcontra
          simp at h2
      · simp only [hg]
        intro hcontra
        have h2 := congrArg Prod.snd hcontra
        simp at h2
    · rw [reconcileDeletionV1, if_pos h]
      rcases hg : (reconcileGatewaysV1 env ci true (gatewayNamesFromContext env.cfg ci)).2
          with _ | e
      · simp only [hg]
        rcases hu : env.ciUpdateResult { ci with finalizers := ci.finalizers.tail }
            with _ | e3 <;> simp only [hu]
        · intro hcontra
          have h1 := congrArg Prod.fst hcontra
          simp at h1
        · intro hcontra
          have h2 := congrArg Prod.snd hcontra
          simp at h2
      · simp only [hg]
        intro hcontra
        have h2 := congrArg Prod.snd hcontra
        simp at h2
    · intro e he
      rw [reconcileDeletionV2, if_pos h]
      simp only [he]

/-- Concrete instantiation of `reconcileDeletion_guard_token_first`. -/
theorem reconcileDeletion_guard_token_first_witness :
    reconcileDeletionV2 demoEnv true demoCITokenSecond = ([], .ok)
    ∧ reconcileDeletionV2 demoEnv true demoCI ≠ ([], .ok)
    ∧ (reconcileDeletionV2 demoEnvGwErr true demoCI).2 = .err (.store "boom".data) :=
  ⟨((reconcileDeletion_guard_token_first demoEnv true demoCITokenSecond).1
      (by decide)).1,
   ((reconcileDeletion_guard_token_first demoEnv true demoCI).2 (by decide)).1,
   ((reconcileDeletion_guard_token_first demoEnvGwErr true demoCI).2
      (by decide)).2.2 (.store "boom".data) (by decide)⟩

/-- The gateway-cleanup step of the second-variant deletion path. -/
def deletionGwPart (env : CIEnv) (ci : ClusterIngress) : List CIEvent × Option Err :=
  reconcileGatewaysV2 env ci (gatewayNamesFromContext env.cfg ci) []

/-- The replica-secret cleanup step of the second-variant deletion path
(skipped unless gateway reconciliation is enabled). -/
def deletionSecretPart (env : CIEnv) (b : Bool) (ci : ClusterIngress) :
    List CIEvent × Outcome :=
  if b then reconcileCertSecretsV2 env ci [] else ([], .ok)

theorem deletionSecretPart_events (env : CIEnv) (b : Bool) (ci : ClusterIngress) :
    ∀ ev ∈ (deletionSecretPart env b ci).1,
      isGatewayEv ev = false ∧ isOwnerWriteEv ev = false ∧ isLockEv ev = false := by
  cases b with
  | true =>
    intro ev hev
    exact reconcileCertSecretsV2_events env ci [] ev (by simpa [deletionSecretPart] using hev)
  | false => intro ev hev; simp [deletionSecretPart] at hev

theorem ownerPatch_ownerWrite {ev : CIEvent} (h : isOwnerPatchEv ev = true) :
    isOwnerWriteEv ev = true := by
  cases ev <;> simp_all [isOwnerPatchEv, isOwnerWriteEv]

/-- An environment with no configured gateways (so deletion cleanup is
trivially complete). -/
def demoEnvNoGw : CIEnv := { demoEnv with cfg := ⟨[], []⟩ }

/-- C4 counterexample: with the token first and both cleanup steps
trivially succeeding, the finalizer removal is issued to the store as a
full object `Update` (`ciUpdate [] `is the entire trace), not as a
metadata patch — refuting the claim that the removal is issued as a
patch. -/
theorem finalizer_removal_full_update_cex :
    reconcileDeletionV2 demoEnvNoGw false demoCI = ([CIEvent.ciUpdate []], .ok)
    ∧ isOwnerPatchEv (CIEvent.ciUpdate []) = false :=
  ⟨by decide, rfl⟩

/-- C4 (amended): the finalizer token is removed only after both cleanup
steps succeed — a gateway-cleanup error or a secret-cleanup error (or
panic) returns before any write against the owner object — and the
removal is then issued as a full object `Update` (never a patch), its
store failure being propagated; the finalizer **addition**
(`ensureFinalizer`) is what uses a metadata merge patch. -/
theorem finalizer_removed_after_cleanup_via_update (env : CIEnv) (b : Bool)
    (ci : ClusterIngress) :
    (∀ e, ci.finalizers.head? = some clusterIngressFinalizer →
      (deletionGwPart env ci).2 = some e →
      reconcileDeletionV2 env b ci = ((deletionGwPart env ci).1, .err e)
      ∧ ∀ ev ∈ (reconcileDeletionV2 env b ci).1, isOwnerWriteEv ev = false)
    ∧ (ci.finalizers.head? = some clusterIngressFinalizer →
      (deletionGwPart env ci).2 = none →
      (deletionSecretPart env b ci).2 ≠ .ok →
      (reconcileDeletionV2 env b ci).1 =
        (deletionGwPart env ci).1 ++ (deletionSecretPart env b ci).1
      ∧ ∀ ev ∈ (reconcileDeletionV2 env b ci).1, isOwnerWriteEv ev = false)
    ∧ (ci.finalizers.head? = some clusterIngressFinalizer →
      (deletionGwPart env ci).2 = none →
      (deletionSecretPart env b ci).2 = .ok →
      (reconcileDeletionV2 env b ci).1 =
        (deletionGwPart env ci).1 ++ (deletionSecretPart env b ci).1
          ++ [CIEvent.ciUpdate ci.finalizers.tail]
      ∧ (∀ e, env.ciUpdateResult { ci with finalizers := ci.finalizers.tail } = some e →
          (reconcileDeletionV2 env b ci).2 = .err e)
      ∧ (env.ciUpdateResult { ci with finalizers := ci.finalizers.tail } = none →
          (reconcileDeletionV2 env b ci).2 = .ok)
      ∧ ∀ ev ∈ (reconcileDeletionV2 env b ci).1, isOwnerPatchEv ev = false)
    ∧ (clusterIngressFinalizer ∈ ci.finalizers → ensureFinalizer env ci = ([], none))
    ∧ (clusterIngressFinalizer ∉ ci.finalizers →
      ensureFinalizer env ci =
        ([.ciPatch (sortStrings (dedup (clusterIngressFinalizer :: ci.finalizers)))],
         env.ciPatchResult)) := by
  refine ⟨?_, ?_, ?_, ?_, ?_⟩
  · intro e h hg
    rw [deletionGwPart] at hg
    have heq : reconcileDeletionV2 env b ci =
        ((reconcileGatewaysV2 env ci (gatewayNamesFromContext env.cfg ci) []).1,
          .err e) := by
      rw [reconcileDeletionV2, if_pos h]
      simp only [hg]
    refine ⟨heq, ?_⟩
    rw [heq]
    intro ev hev
    exact (gatewayEv_classes (reconcileGatewaysV2_events env ci _ [] ev hev)).2
  · intro h hg hs
    rw [deletionGwPart] at hg
    rcases hsv : (deletionSecretPart env b ci).2 with _ | e2 | _
    · exact absurd hsv hs
    · have heq : reconcileDeletionV2 env b ci =
          ((reconcileGatewaysV2 env ci (gatewayNamesFromContext env.cfg ci) []).1
            ++ (deletionSecretPart env b ci).1, .err e2) := by
        rw [reconcileDeletionV2, if_pos h]
        simp only [hg]
        rw [deletionSecretPart] at hsv
        simp only [hsv]
        rw [deletionSecretPart]
      refine ⟨by rw [heq, deletionGwPart], ?_⟩
      rw [heq]
      intro ev hev
      rcases List.mem_append.mp hev with hev | hev
      · exact (gatewayEv_classes (reconcileGatewaysV2_events env ci _ [] ev hev)).2
      · exact (deletionSecretPart_events env b ci ev hev).2.1
    · have heq : reconcileDeletionV2 env b ci =
          ((reconcileGatewaysV2 env ci (gatewayNamesFromContext env.cfg ci) []).1
            ++ (deletionSecretPart env b ci).1, .panic) := by
        rw [reconcileDeletionV2, if_pos h]
        simp only [hg]
        rw [deletionSecretPart] at hsv
        simp only [hsv]
        rw [deletionSecretPart]
      refine ⟨by rw [heq, deletionGwPart], ?_⟩
      rw [heq]
      intro ev hev
      rcases List.mem_append.mp hev with hev | hev
      · exact (gatewayEv_classes (reconcileGatewaysV2_events env ci _ [] ev hev)).2
      · exact (deletionSecretPart_events env b ci ev hev).2.1
  · intro h hg hs
    rw [deletionGwPart] at hg
    have hsv := hs
    rw [deletionSecretPart] at hsv
    have htr : (reconcileDeletionV2 env b ci).1 =
        (reconcileGatewaysV2 env ci (gatewayNamesFromContext env.cfg ci) []).1
          ++ (deletionSecretPart env b ci).1
          ++ [CIEvent.ciUpdate ci.finalizers.tail] := by
      rw [reconcileDeletionV2, if_pos h]
      simp only [hg, hsv]
      rcases hu : env.ciUpdateResult { ci with finalizers := ci.finalizers.tail }
          with _ | e3 <;> simp only [hu] <;> rw [deletionSecretPart]
    refine ⟨by rw [htr, deletionGwPart], ?_, ?_, ?_⟩
    · intro e hu
      rw [reconcileDeletionV2, if_pos h]
      simp only [hg, hsv, hu]
    · intro hu
      rw [reconcileDeletionV2, if_pos h]
      simp only [hg, hsv, hu]
    · rw [htr]
      intro ev hev
      rcases List.mem_append.mp hev with hev | hev
      · rcases List.mem_append.mp hev with hev | hev
        · have h2 := (gatewayEv_classes (reconcileGatewaysV2_events env ci _ [] ev hev)).2
          by_contra hc
          simp only [Bool.not_eq_false] at hc
          rw [ownerPatch_ownerWrite hc] at h2
          cases h2
        · have h2 := (deletionSecretPart_events env b ci ev hev).2.1
          by_contra hc
          simp only [Bool.not_eq_false] at hc
          rw [ownerPatch_ownerWrite hc] at h2
          cases h2
      · rw [List.mem_singleton] at hev
        subst hev
        rfl
  · intro h
    rw [ensureFinalizer, if_pos h]
  · intro h
    rw [ensureFinalizer, if_neg h]

/-- Concrete instantiation of
`finalizer_removed_after_cleanup_via_update`: a failing gateway cleanup
leaves the owner untouched; a clean run issues the removal as a full
update and succeeds; the finalizer addition patches. -/
theorem finalizer_removed_after_cleanup_via_update_witness :
    reconcileDeletionV2 demoEnvGwErr true demoCI =
      ([CIEvent.gatewayRead "gw".data], .err (.store "boom".data))
    ∧ (reconcileDeletionV2 demoEnvNoGw false demoCI).2 = .ok
    ∧ ensureFinalizer demoEnvNoGw ⟨"ci1".data, [], "rv".data, true, []⟩ =
      ([.ciPatch [clusterIngressFinalizer]], none) := by
  refine ⟨?_, ?_, ?_⟩
  · exact ((finalizer_removed_after_cleanup_via_update demoEnvGwErr true demoCI).1
      (.store "boom".data) (by decide) (by decide)).1
  · exact ((finalizer_removed_after_cleanup_via_update demoEnvNoGw false demoCI).2.2.1
      (by decide) (by decide) (by decide)).2.2.1 (by decide)
  · have h := (finalizer_removed_after_cleanup_via_update demoEnvNoGw false
      ⟨"ci1".data, [], "rv".data, true, []⟩).2.2.2.2 (by decide)
    rw [h]
    rfl

/-! ### Mutex discipline over traces (C8) -/

/-- Check that every gateway read or write in a trace happens while the
mutex is held; the first argument is the current lock state. -/
def lockCheck : Bool → List CIEvent → Bool
  | _, [] => true
  | _, .lockAcquire :: rest => lockCheck true rest
  | _, .lockRelease :: rest => lockCheck false rest
  | inLock, .gatewayRead _ :: rest => inLock && lockCheck inLock rest
  | inLock, .gatewayWrite _ :: rest => inLock && lockCheck inLock rest
  | inLock, _ :: rest => lockCheck inLock rest

/-- The lock state after running a trace. -/
def lockState : Bool → List CIEvent → Bool
  | s, [] => s
  | _, .lockAcquire :: rest => lockState true rest
  | _, .lockRelease :: rest => lockState false rest
  | s, _ :: rest => lockState s rest

theorem lockState_append (s : Bool) (t1 t2 : List CIEvent) :
    lockState s (t1 ++ t2) = lockState (lockState s t1) t2 := by
  induction t1 generalizing s with
  | nil => rfl
  | cons ev rest ih => cases ev <;> simp [lockState, ih]

theorem lockCheck_append (s : Bool) (t1 t2 : List CIEvent) :
    lockCheck s (t1 ++ t2) = (lockCheck s t1 && lockCheck (lockState s t1) t2) := by
  induction t1 generalizing s with
  | nil => simp [lockCheck, lockState]
  | cons ev rest ih => cases ev <;> simp [lockCheck, lockState, ih, Bool.and_assoc]

theorem noLock_lockState {tr : List CIEvent}
    (h : ∀ ev ∈ tr, isLockEv ev = false) (s : Bool) : lockState s tr = s := by
  induction tr generalizing s with
  | nil => rfl
  | cons ev rest ih =>
    have hev := h ev (List.mem_cons_self _ _)
    have hrest : ∀ e2 ∈ rest, isLockEv e2 = false :=
      fun e2 he2 => h e2 (List.mem_cons_of_mem _ he2)
    cases ev <;> simp [isLockEv] at hev <;> simp [lockState, ih hrest]

theorem noLock_lockCheck_true {tr : List CIEvent}
    (h : ∀ ev ∈ tr, isLockEv ev = false) : lockCheck true tr = true := by
  induction tr with
  | nil => rfl
  | cons ev rest ih =>
    have hev := h ev (List.mem_cons_self _ _)
    have hrest : ∀ e2 ∈ rest, isLockEv e2 = false :=
      fun e2 he2 => h e2 (List.mem_cons_of_mem _ he2)
    cases ev <;> simp [isLockEv] at hev <;>
      simp [lockCheck, ih hrest, noLock_lockState hrest]

theorem quiet_lockCheck {tr : List CIEvent}
    (h : ∀ ev ∈ tr, isLockEv ev = false ∧ isGatewayEv ev = false) (s : Bool) :
    lockCheck s tr = true ∧ lockState s tr = s := by
  induction tr generalizing s with
  | nil => exact ⟨rfl, rfl⟩
  | cons ev rest ih =>
    have hev := h ev (List.mem_cons_self _ _)
    have hrest : ∀ e2 ∈ rest, isLockEv e2 = false ∧ isGatewayEv e2 = false :=
      fun e2 he2 => h e2 (List.mem_cons_of_mem _ he2)
    cases ev <;>
      simp [isLockEv, isGatewayEv] at hev <;>
      simp [lockCheck, lockState, (ih hrest s).1, (ih hrest s).2]

theorem reconcileGatewayV1_lockCheck (env : CIEnv) (ci : ClusterIngress)
    (g : Str) (del : Bool) :
    lockCheck false (reconcileGatewayV1 env ci g del).1 = true
    ∧ lockState false (reconcileGatewayV1 env ci g del).1 = false := by
  have hin : ∀ ev ∈ (reconcileGatewayV2 env ci g
      (if del then [] else MakeServers ci)).1, isLockEv ev = false := by
    intro ev hev
    have := reconcileGatewayV2_events env ci g _ ev hev
    cases ev <;> simp_all [isGatewayEv, isLockEv]
  constructor
  · show lockCheck true ((reconcileGatewayV2 env ci g
      (if del then [] else MakeServers ci)).1 ++ [.lockRelease]) = true
    rw [lockCheck_append, noLock_lockCheck_true hin, noLock_lockState hin]
    rfl
  · show lockState true ((reconcileGatewayV2 env ci g
      (if del then [] else MakeServers ci)).1 ++ [.lockRelease]) = false
    rw [lockState_append, noLock_lockState hin]
    rfl

theorem reconcileGatewaysV1_lockCheck (env : CIEnv) (ci : ClusterIngress)
    (del : Bool) (gs : List Str) :
    lockCheck false (reconcileGatewaysV1 env ci del gs).1 = true
    ∧ lockState false (reconcileGatewaysV1 env ci del gs).1 = false := by
  induction gs with
  | nil => exact ⟨rfl, rfl⟩
  | cons g rest ih =>
    rw [reconcileGatewaysV1]
    rcases hr : (reconcileGatewayV1 env ci g del).2 with _ | e <;> simp only [hr]
    · constructor
      · rw [lockCheck_append, (reconcileGatewayV1_lockCheck env ci g del).1,
          (reconcileGatewayV1_lockCheck env ci g del).2, ih.1]
        rfl
      · rw [lockState_append, (reconcileGatewayV1_lockCheck env ci g del).2, ih.2]
    · exact reconcileGatewayV1_lockCheck env ci g del

theorem reconcileDeletionV1_lockCheck (env : CIEnv) (ci : ClusterIngress) :
    lockCheck false (reconcileDeletionV1 env ci).1 = true := by
  have huq : ∀ ev ∈ (ci.tls.map
        (fun t => CIEvent.untrack t.secretNamespace t.secretName)
      ++ [CIEvent.ciUpdate ci.finalizers.tail]),
      isLockEv ev = false ∧ isGatewayEv ev = false := by
    intro ev hev
    rcases List.mem_append.mp hev with hev | hev
    · rcases List.mem_map.mp hev with ⟨t, _, rfl⟩
      exact ⟨rfl, rfl⟩
    · rw [List.mem_singleton] at hev
      subst hev
      exact ⟨rfl, rfl⟩
  rw [reconcileDeletionV1]
  split
  · rcases hg : (reconcileGatewaysV1 env ci true (gatewayNamesFromContext env.cfg ci)).2
        with _ | e <;> simp only [hg]
    · rcases hu : env.ciUpdateResult { ci with finalizers := ci.finalizers.tail }
          with _ | e3 <;> simp only [hu] <;>
      · rw [List.append_assoc, lockCheck_append,
          (reconcileGatewaysV1_lockCheck env ci true _).1,
          (reconcileGatewaysV1_lockCheck env ci true _).2,
          (quiet_lockCheck huq false).1]
        rfl
    · exact (reconcileGatewaysV1_lockCheck env ci true _).1
  · rfl

/-- C8 counterexample: the second-variant `reconcileGateway` performs the
shared-gateway read-modify-write cycle with no mutex at all — on the
concrete environment its trace is a gateway read followed by a gateway
write and fails the lock-discipline check. -/
theorem gatewayV2_rmw_unlocked_cex :
    reconcileGatewayV2 demoEnv demoCI "gw".data [] =
      ([.gatewayRead "gw".data, .gatewayWrite ⟨"gw".data, "ns".data, []⟩], none)
    ∧ lockCheck false [CIEvent.gatewayRead "gw".data,
        CIEvent.gatewayWrite ⟨"gw".data, "ns".data, []⟩] = false :=
  ⟨by decide, rfl⟩

/-- C8 (amended): in the first variant every shared-gateway
read-modify-write cycle — single gateway (either the normal `deletes =
false` path or the deletion path), the loop over all configured gateways,
and the whole deletion path — runs with the process-wide mutex held,
while the second variant's cycle never touches the lock. -/
theorem gateway_rmw_lock_discipline (env : CIEnv) (ci : ClusterIngress)
    (g : Str) (del : Bool) (gs : List Str) (d : List Server) :
    lockCheck false (reconcileGatewayV1 env ci g del).1 = true
    ∧ lockCheck false (reconcileGatewaysV1 env ci del gs).1 = true
    ∧ lockCheck false (reconcileDeletionV1 env ci).1 = true
    ∧ ∀ ev ∈ (reconcileGatewayV2 env ci g d).1, isLockEv ev = false := by
  refine ⟨(reconcileGatewayV1_lockCheck env ci g del).1,
    (reconcileGatewaysV1_lockCheck env ci del gs).1,
    reconcileDeletionV1_lockCheck env ci, ?_⟩
  intro ev hev
  have := reconcileGatewayV2_events env ci g d ev hev
  cases ev <;> simp_all [isGatewayEv, isLockEv]

/-- Concrete instantiation of `gateway_rmw_lock_discipline`. -/
theorem gateway_rmw_lock_discipline_witness :
    lockCheck false (reconcileDeletionV1 demoEnv demoCI).1 = true
    ∧ isLockEv (CIEvent.gatewayRead "gw".data) = false :=
  ⟨(gateway_rmw_lock_discipline demoEnv demoCI "gw".data true [] []).2.2.1,
   (gateway_rmw_lock_discipline demoEnv demoCI "gw".data true [] []).2.2.2
     (CIEvent.gatewayRead "gw".data) (by decide)⟩

/-! ## Converge primitives (C5): `reconcileVirtualService`
(part_006 lines 920–957), `reconcileCert` (`route.go` lines 333–360) and
`reconcileCertSecret` (part_006 lines 1058–1091, embedded above). -/

/-- An `istio v1alpha3.VirtualService`: identity, the controlling owner
reference checked by `metav1.IsControlledBy` (the name of the controlling
ClusterIngress, `none` when controlled by nobody or somebody else is
modelled by a different name), and an opaque spec payload. -/
structure VirtualService where
  ns : Str
  name : Str
  ownerCtrl : Option Str
  spec : Str
  deriving DecidableEq

/-- Environment of the virtual-service converge. -/
structure VSEnv where
  vsGet : Str → Str → GetResult VirtualService
  vsCreateResult : VirtualService → Option Err
  vsUpdateResult : VirtualService → Option Err

/-- Outcome of the virtual-service converge: the object passed to
`Create` (if any), the object passed to `Update` (if any), the
`MarkResourceNotOwned` condition set on the parent status (kind, name),
and the returned error. -/
structure VSConvergeResult where
  created : Option VirtualService
  updated : Option VirtualService
  notOwnedMark : Option (Str × Str)
  result : Option Err
  deriving DecidableEq

/-- Go `reconcileVirtualService`: get by namespace/name; not found →
create from desired; found but not controlled by this ClusterIngress →
mark `MarkResourceNotOwned("VirtualService", name)` on the parent status
and return a named not-owned error; found, owned, spec deep-equal → no
write; otherwise deep-copy the existing object, overwrite only its spec,
and update. -/
def reconcileVirtualService (env : VSEnv) (ci : ClusterIngress)
    (desired : VirtualService) : VSConvergeResult :=
  match env.vsGet desired.ns desired.name with
  | .notFound =>
    { created := some desired, updated := none, notOwnedMark := none,
      result := env.vsCreateResult desired }
  | .getErr e =>
    { created := none, updated := none, notOwnedMark := none, result := some e }
  | .found vs =>
    if vs.ownerCtrl ≠ some ci.name then
      { created := none, updated := none,
        notOwnedMark := some ("VirtualService".data, desired.name),
        result := some (.notOwned "VirtualService".data ci.name desired.name) }
    else if vs.spec = desired.spec then
      { created := none, updated := none, notOwnedMark := none, result := none }
    else
      { created := none, updated := some { vs with spec := desired.spec },
        notOwnedMark := none,
        result := env.vsUpdateResult { vs with spec := desired.spec } }

/-- Environment of the certificate converge. -/
structure CertEnv where
  certGet : Str → Str → GetResult Certificate
  certCreateResult : Certificate → Option Err
  certUpdateResult : Certificate → Option Err

/-- Outcome of the certificate converge. -/
structure CertConvergeResult where
  created : Option Certificate
  updated : Option Certificate
  result : Option Err
  deriving DecidableEq

/-- Go `reconcileCert` (`route.go`): get by namespace/name; not found →
create from desired; found with spec deep-equal → no write; otherwise
deep-copy, overwrite only the spec, and update.  Unlike the
virtual-service converge it performs **no ownership check** and never
touches the route status. -/
def reconcileCert (env : CertEnv) (r : Route) (desired : Certificate) :
    CertConvergeResult :=
  match env.certGet desired.ns desired.name with
  | .notFound =>
    { created := some desired, updated := none,
      result := env.certCreateResult desired }
  | .getErr e => { created := none, updated := none, result := some e }
  | .found cert =>
    if cert.spec = desired.spec then
      { created := none, updated := none, result := none }
    else
      { created := none, updated := some { cert with spec := desired.spec },
        result := env.certUpdateResult { cert with spec := desired.spec } }

/-- A certificate sitting in the cache that is controlled by a different
route and carries a different spec. -/
def otherOwnedCert : Certificate :=
  { name := "example.com".data, ns := "istio-system".data,
    routeAnnotation := [], owner := some ("other".data, "owner".data),
    spec := { dnsNames := ["*.example.com".data], secretName := "old".data } }

/-- The route performing the converge and its desired certificate. -/
def demoRoute : Route := ⟨"ns".data, "r".data, "d.example.com".data⟩

/-- Desired certificate of `demoRoute`, differing in spec from
`otherOwnedCert`. -/
def demoDesiredCert : Certificate :=
  { name := "example.com".data, ns := "istio-system".data,
    routeAnnotation := [(demoRoute.ns, demoRoute.name)],
    owner := some (demoRoute.ns, demoRoute.name),
    spec := { dnsNames := ["*.example.com".data], secretName := "example.com".data } }

/-- A certificate-converge environment whose cache holds
`otherOwnedCert` and whose store accepts every write. -/
def demoCertEnv : CertEnv :=
  { certGet := fun _ _ => .found otherOwnedCert
    certCreateResult := fun _ => none
    certUpdateResult := fun _ => none }

/-- C5 counterexample: the certificate converge finds an existing object
controlled by a different route with a differing spec, and — contrary to
the claim that every child-kind converge returns a named not-owned error
and sets a blocking condition — silently overwrites its spec with an
update and returns no error. -/
theorem cert_converge_ignores_ownership_cex :
    otherOwnedCert.owner ≠ some (demoRoute.ns, demoRoute.name)
    ∧ reconcileCert demoCertEnv demoRoute demoDesiredCert =
      { created := none,
        updated := some { otherOwnedCert with spec := demoDesiredCert.spec },
        result := none } :=
  ⟨by decide, by decide⟩

/-- C5 (amended): each converge creates from the desired object when
nothing exists, skips the write when the owned fields (spec/data) are
deep-equal, and otherwise updates only those fields on a deep copy of the
existing object; the found-but-not-owned branch — named error plus
blocking status condition — exists only in the virtual-service converge,
while the certificate and replica-secret converges perform no ownership
check and update regardless of owner. -/
theorem converge_per_kind_behavior (venv : VSEnv) (cenv : CertEnv) (senv : CIEnv)
    (ci : ClusterIngress) (r : Route) (dvs : VirtualService) (dc : Certificate)
    (ds : SecretObj) :
    ((venv.vsGet dvs.ns dvs.name = .notFound →
      reconcileVirtualService venv ci dvs =
        { created := some dvs, updated := none, notOwnedMark := none,
          result := venv.vsCreateResult dvs })
    ∧ (∀ vs, venv.vsGet dvs.ns dvs.name = .found vs →
        vs.ownerCtrl ≠ some ci.name →
        reconcileVirtualService venv ci dvs =
          { created := none, updated := none,
            notOwnedMark := some ("VirtualService".data, dvs.name),
            result := some (.notOwned "VirtualService".data ci.name dvs.name) })
    ∧ (∀ vs, venv.vsGet dvs.ns dvs.name = .found vs →
        vs.ownerCtrl = some ci.name → vs.spec = dvs.spec →
        reconcileVirtualService venv ci dvs =
          { created := none, updated := none, notOwnedMark := none,
            result := none })
    ∧ (∀ vs, venv.vsGet dvs.ns dvs.name = .found vs →
        vs.ownerCtrl = some ci.name → vs.spec ≠ dvs.spec →
        reconcileVirtualService venv ci dvs =
          { created := none, updated := some { vs with spec := dvs.spec },
            notOwnedMark := none,
            result := venv.vsUpdateResult { vs with spec := dvs.spec } }))
    ∧ ((cenv.certGet dc.ns dc.name = .notFound →
      reconcileCert cenv r dc =
        { created := some dc, updated := none,
          result := cenv.certCreateResult dc })
    ∧ (∀ c, cenv.certGet dc.ns dc.name = .found c → c.spec = dc.spec →
        reconcileCert cenv r dc = { created := none, updated := none, result := none })
    ∧ (∀ c, cenv.certGet dc.ns dc.name = .found c → c.spec ≠ dc.spec →
        reconcileCert cenv r dc =
          { created := none, updated := some { c with spec := dc.spec },
            result := cenv.certUpdateResult { c with spec := dc.spec } }))
    ∧ ((senv.secretGet ds.ns ds.name = .notFound →
      reconcileCertSecretV2 senv ci ds =
        ([.track ds.ns ds.name, .track ds.originNamespace ds.originName,
          .secretCreate ds.ns ds.name], senv.secretCreateResult ds))
    ∧ (∀ s, senv.secretGet ds.ns ds.name = .found s → s.data = ds.data →
        reconcileCertSecretV2 senv ci ds =
          ([.track ds.ns ds.name, .track ds.originNamespace ds.originName], none))
    ∧ (∀ s, senv.secretGet ds.ns ds.name = .found s → s.data ≠ ds.data →
        reconcileCertSecretV2 senv ci ds =
          ([.track ds.ns ds.name, .track ds.originNamespace ds.originName,
            .secretUpdate s.ns s.name],
           senv.secretUpdateResult { s with data := ds.data }))) := by
  refine ⟨⟨?_, ?_, ?_, ?_⟩, ⟨?_, ?_, ?_⟩, ⟨?_, ?_, ?_⟩⟩
  · intro h
    rw [reconcileVirtualService, h]
  · intro vs h hown
    simp only [reconcileVirtualService, h]
    rw [if_pos hown]
  · intro vs h hown heq
    simp only [reconcileVirtualService, h]
    rw [if_neg (by simp [hown]), if_pos heq]
  · intro vs h hown hne
    simp only [reconcileVirtualService, h]
    rw [if_neg (by simp [hown]), if_neg hne]
  · intro h
    rw [reconcileCert, h]
  · intro c h heq
    simp only [reconcileCert, h]
    rw [if_pos heq]
  · intro c h hne
    simp only [reconcileCert, h]
    rw [if_neg hne]
  · intro h
    simp only [reconcileCertSecretV2, h]
    rfl
  · intro s h heq
    simp only [reconcileCertSecretV2, h]
    rw [if_pos heq]
  · intro s h hne
    simp only [reconcileCertSecretV2, h]
    rw [if_neg hne]
    rfl

/-- Concrete instantiation of `converge_per_kind_behavior`: the
virtual-service converge rejects a foreign-owned object; the certificate
converge updates one. -/
theorem converge_per_kind_behavior_witness :
    reconcileVirtualService
      ⟨fun _ _ => .found ⟨"ns".data, "vs1".data, some "other".data, "s0".data⟩,
       fun _ => none, fun _ => none⟩
      demoCI ⟨"ns".data, "vs1".data, some "ci1".data, "s1".data⟩ =
      { created := none, updated := none,
        notOwnedMark := some ("VirtualService".data, "vs1".data),
        result := some (.notOwned "VirtualService".data "ci1".data "vs1".data) }
    ∧ reconcileCert demoCertEnv demoRoute demoDesiredCert =
      { created := none,
        updated := some { otherOwnedCert with spec := demoDesiredCert.spec },
        result := none } := by
  constructor
  · exact (converge_per_kind_behavior
      ⟨fun _ _ => .found ⟨"ns".data, "vs1".data, some "other".data, "s0".data⟩,
       fun _ => none, fun _ => none⟩
      demoCertEnv demoEnv demoCI demoRoute
      ⟨"ns".data, "vs1".data, some "ci1".data, "s1".data⟩ demoDesiredCert
      demoSecret).1.2.1
      ⟨"ns".data, "vs1".data, some "other".data, "s0".data⟩ (by decide) (by decide)
  · exact (converge_per_kind_behavior
      ⟨fun _ _ => .found ⟨"ns".data, "vs1".data, some "other".data, "s0".data⟩,
       fun _ => none, fun _ => none⟩
      demoCertEnv demoEnv demoCI demoRoute
      ⟨"ns".data, "vs1".data, some "ci1".data, "s1".data⟩ demoDesiredCert
      demoSecret).2.1.2.2 otherOwnedCert (by decide) (by decide)

/-! ## Route reconcile: traffic configuration and the target-error path
(`route.go` lines 183–331, 392–442).  `traffic.BuildTrafficConfiguration`,
`reconcileTargetRevisions`, `reconcileClusterIngress`,
`reconcilePlaceholderService` and the `RouteStatus` condition helpers are
not in the source tree; they are modelled from the spec where noted. -/

/-- A named traffic target of a route spec referencing a configuration. -/
structure TrafficTargetSpec where
  name : Str
  configurationName : Str
  percent : Nat
  deriving DecidableEq

/-- Modelled from the spec: the route status condition helpers
(`MarkBadTrafficTarget`, `MarkUnknownTrafficError`, `MarkTrafficAssigned`,
`InitializeConditions` — the serving apis package is not in the tree) as
condition markers: "recorded as a status condition with a human-readable
message". -/
structure RouteStatus where
  initialized : Bool
  domain : Str
  badTarget : Option Str
  unknownTrafficError : Option Str
  trafficAssigned : Bool
  traffic : List (Str × Nat)
  deriving DecidableEq

/-- The fields of a `v1alpha1.Route` used by the reconcile body. -/
structure RouteObj where
  ns : Str
  name : Str
  targets : List TrafficTargetSpec
  status : RouteStatus
  deriving DecidableEq

/-- A resolved `traffic.Config`: each target resolved to a revision, plus
the configurations to register with the tracker. -/
structure TrafficCfg where
  resolved : List (Str × Str × Nat)
  configurations : List Str
  deriving DecidableEq

/-- The typed `traffic.TargetError` versus a generic build error. -/
inductive TrafficBuildError
  | target (configurationName : Str)
  | generic (msg : Str)
  deriving DecidableEq

/-- An error returned by the route reconcile body: a traffic build error
propagated as-is, or a store error. -/
inductive RouteErr
  | build (e : TrafficBuildError)
  | store (e : Err)
  deriving DecidableEq

/-- Modelled from the spec: the resolution loop of
`traffic.BuildTrafficConfiguration` — each target is resolved via its
configuration's latest ready revision (`latestReady`), and a
configuration with no ready revision yields the typed target error. -/
def resolveTargets (latestReady : Str → Option Str) :
    List TrafficTargetSpec → Except Str (List (Str × Str × Nat))
  | [] => .ok []
  | t :: rest =>
    match latestReady t.configurationName with
    | none => .error t.configurationName
    | some rev =>
      match resolveTargets latestReady rest with
      | .error c => .error c
      | .ok tail => .ok ((t.name, rev, t.percent) :: tail)

/-- Modelled from the spec: `traffic.BuildTrafficConfiguration` (source
not in the tree) returns the resolved configuration, or `nil` plus a
typed target error when some referenced configuration has no ready
revision. -/
def buildTrafficConfiguration (latestReady : Str → Option Str) (r : RouteObj) :
    Option TrafficCfg × Option TrafficBuildError :=
  match resolveTargets latestReady r.targets with
  | .error c => (none, some (.target c))
  | .ok resolved =>
    (some ⟨resolved, r.targets.map (fun t => t.configurationName)⟩, none)

/-- Observable actions of the route reconcile body. -/
inductive REvent
  | trackConfiguration (name : Str)
  | trackRevision (name : Str)
  | revisionAnnotate (name : Str)
  | certCreate (c : Certificate)
  | certUpdate (c : Certificate)
  | ciChildWrite (name : Str)
  | svcWrite (name : Str)
  deriving DecidableEq

/-- Environment of a route reconcile: the lister views, tracker and store
verdicts, the domain configuration, and the outcomes of the three
converge steps whose sources are not in the tree
(`reconcileTargetRevisions`, `reconcileClusterIngress`,
`reconcilePlaceholderService` — each modelled from the spec as a step
returning its store events and verdict). -/
structure RouteEnv where
  latestReady : Str → Option Str
  trackResult : Str → Option Err
  trackRevisionResult : Str → Option Err
  domainSuffix : Str
  certGet : Str → Str → GetResult Certificate
  certCreateResult : Certificate → Option Err
  certUpdateResult : Certificate → Option Err
  targetRevisionsStep : List REvent × Option Err
  clusterIngressStep : List ClusterIngressTLS → List REvent × Except Err Bool
  placeholderStep : List REvent × Option Err
  updateStatusResult : Option Err

/-- The configuration-tracking loop of `configureTraffic`
(`c.tracker.Track(objectRef(configuration), r)`, aborting on the first
tracking error). -/
def trackConfigsLoop (env : RouteEnv) : List Str → List REvent × Option Err
  | [] => ([], none)
  | c :: rest =>
    match env.trackResult c with
    | some e => ([.trackConfiguration c], some e)
    | none =>
      let r := trackConfigsLoop env rest
      (.trackConfiguration c :: r.1, r.2)

/-- The revision-tracking loop of `configureTraffic`. -/
def trackRevisionsLoop (env : RouteEnv) : List Str → List REvent × Option Err
  | [] => ([], none)
  | rev :: rest =>
    match env.trackRevisionResult rev with
    | some e => ([.trackRevision rev], some e)
    | none =>
      let r := trackRevisionsLoop env rest
      (.trackRevision rev :: r.1, r.2)

/-- Outcome of `configureTraffic`: emitted events, the (possibly
status-marked) route, the traffic configuration, and the returned
error. -/
structure TrafficOutcome where
  events : List REvent
  route : RouteObj
  cfg : Option TrafficCfg
  result : Option RouteErr
  deriving DecidableEq

/-- Go `configureTraffic` (`route.go` lines 288–331): build the traffic
configuration; when a configuration was produced, register tracker
entries for its configurations and revisions (a tracking failure returns
`(nil, err)`); a non-target error marks `MarkUnknownTrafficError` and is
returned; the typed target error marks `MarkBadTrafficTarget` and
returns `(nil, nil)`; otherwise the resolved traffic is written into the
status and `MarkTrafficAssigned` is set. -/
def configureTraffic (env : RouteEnv) (r : RouteObj) : TrafficOutcome :=
  match buildTrafficConfiguration env.latestReady r with
  | (some cfg, _) =>
    let tc := trackConfigsLoop env cfg.configurations
    match tc.2 with
    | some e => ⟨tc.1, r, none, some (.store e)⟩
    | none =>
      let tv := trackRevisionsLoop env (cfg.resolved.map (fun x => x.2.1))
      match tv.2 with
      | some e => ⟨tc.1 ++ tv.1, r, none, some (.store e)⟩
      | none =>
        ⟨tc.1 ++ tv.1,
         { r with status := { r.status with
             traffic := cfg.resolved.map (fun x => (x.2.1, x.2.2)),
             trafficAssigned := true } },
         some cfg, none⟩
  | (none, some (.target c)) =>
    ⟨[], { r with status := { r.status with badTarget := some c } }, none, none⟩
  | (none, some (.generic m)) =>
    ⟨[], { r with status := { r.status with unknownTrafficError := some m } },
     none, some (.build (.generic m))⟩
  | (none, none) => ⟨[], r, none, none⟩

/-- Go `routeDomain`: `{name}.{namespace}.{domain}`, with the
label-selected domain suffix supplied by the config snapshot. -/
def routeDomain (env : RouteEnv) (r : RouteObj) : Str :=
  r.name ++ '.' :: r.ns ++ '.' :: env.domainSuffix

/-- Go `makeCertificate` (`route.go` lines 392–420): the route domain
plus `{target}.{routeDomain}` for every non-empty target name,
deduplicated and sorted; named `{name}.{namespace}`, in `istio-system`,
owned by the route. -/
def makeCertificate (env : RouteEnv) (r : RouteObj) (cfg : TrafficCfg) : Certificate :=
  let routeDNSName := routeDomain env r
  let dnsNames := routeDNSName ::
    ((cfg.resolved.map (fun x => x.1)).filter (fun n => n ≠ [])).map
      (fun n => n ++ '.' :: routeDNSName)
  { name := r.name ++ '.' :: r.ns
    ns := "istio-system".data
    routeAnnotation := []
    owner := some (r.ns, r.name)
    spec := { dnsNames := sortStrings (dedup dnsNames)
              secretName := r.name ++ '.' :: r.ns } }

/-- Go `makeClusterIngressTLS` (`route.go` lines 434–442). -/
def makeClusterIngressTLS (cert : Certificate) : List ClusterIngressTLS :=
  [{ hosts := cert.spec.dnsNames, secretName := cert.spec.secretName,
     secretNamespace := cert.ns }]

/-- Outcome of the route reconcile body. -/
structure RouteReconcileOutcome where
  events : List REvent
  route : RouteObj
  result : Option RouteErr
  deriving DecidableEq

/-- Go `reconcile` for routes (`route.go` lines 223–280): apply defaults
and initialize conditions, configure traffic — returning the error (nil
for a target error) when no traffic was configured — then annotate the
target revisions, converge the certificate, set the status domain, and
converge the ClusterIngress and placeholder service. -/
def reconcileRoute (env : RouteEnv) (r0 : RouteObj) : RouteReconcileOutcome :=
  let r := { r0 with status := { r0.status with initialized := true } }
  let ct := configureTraffic env r
  match ct.cfg, ct.result with
  | none, res => ⟨ct.events, ct.route, res⟩
  | some _, some e => ⟨ct.events, ct.route, some e⟩
  | some cfg, none =>
    match env.targetRevisionsStep with
    | (evs, some e) => ⟨ct.events ++ evs, ct.route, some (.store e)⟩
    | (evs, none) =>
      let dcert := makeCertificate env ct.route cfg
      let cc := reconcileCert
        ⟨env.certGet, env.certCreateResult, env.certUpdateResult⟩
        ⟨ct.route.ns, ct.route.name, ct.route.status.domain⟩ dcert
      let ccEvents :=
        (match cc.created with | some c => [REvent.certCreate c] | none => [])
        ++ (match cc.updated with | some c => [REvent.certUpdate c] | none => [])
      match cc.result with
      | some e => ⟨ct.events ++ evs ++ ccEvents, ct.route, some (.store e)⟩
      | none =>
        let r2 := { ct.route with status :=
          { ct.route.status with domain := routeDomain env ct.route } }
        match env.clusterIngressStep (makeClusterIngressTLS dcert) with
        | (evs2, .error e) =>
          ⟨ct.events ++ evs ++ ccEvents ++ evs2, r2, some (.store e)⟩
        | (evs2, .ok _) =>
          match env.placeholderStep with
          | (evs3, some e) =>
            ⟨ct.events ++ evs ++ ccEvents ++ evs2 ++ evs3, r2, some (.store e)⟩
          | (evs3, none) =>
            ⟨ct.events ++ evs ++ ccEvents ++ evs2 ++ evs3, r2, none⟩

/-- Go `Reconcile` for a route found in the cache (`route.go` lines
204–221): run the body on a deep copy, compare statuses, and issue a
status-only update when they differ, propagating its failure. -/
def ReconcileRoute (env : RouteEnv) (original : RouteObj) :
    List REvent × Option RouteErr :=
  let body := reconcileRoute env original
  if original.status = body.route.status then (body.events, body.result)
  else
    match env.updateStatusResult with
    | some e => (body.events, some (.store e))
    | none => (body.events, body.result)

theorem resolveTargets_error_of_bad {lr : Str → Option Str}
    {ts : List TrafficTargetSpec} (h : ∃ t ∈ ts, lr t.configurationName = none) :
    ∃ c, resolveTargets lr ts = .error c ∧ lr c = none := by
  induction ts with
  | nil => obtain ⟨t, ht, _⟩ := h; simp at ht
  | cons t rest ih =>
    rcases hlr : lr t.configurationName with _ | rev
    · exact ⟨t.configurationName, by rw [resolveTargets, hlr], hlr⟩
    · obtain ⟨t2, ht2, hbad⟩ := h
      rcases List.mem_cons.mp ht2 with rfl | ht2
      · rw [hlr] at hbad; cases hbad
      · obtain ⟨c, hres, hc⟩ := ih ⟨t2, ht2, hbad⟩
        exact ⟨c, by rw [resolveTargets, hlr, hres], hc⟩

/-- C6: a route with a target whose configuration has no ready revision
makes the traffic-configuration step mark the typed target-error
condition; the reconcile body returns with **no** child-object action (no
certificate, no ClusterIngress, no tracking — the event trace is empty)
and no error, and `Reconcile` (with a succeeding status write) returns
nil, so the key is not requeued with backoff. -/
theorem route_target_error_no_children (env : RouteEnv) (r0 : RouteObj)
    (hbad : ∃ t ∈ r0.targets, env.latestReady t.configurationName = none)
    (hupd : env.updateStatusResult = none) :
    (reconcileRoute env r0).events = []
    ∧ (reconcileRoute env r0).result = none
    ∧ (∃ c, env.latestReady c = none
        ∧ (reconcileRoute env r0).route.status.badTarget = some c)
    ∧ (ReconcileRoute env r0).1 = []
    ∧ (ReconcileRoute env r0).2 = none := by
  obtain ⟨c, hres, hc⟩ := @resolveTargets_error_of_bad env.latestReady
    ({ r0 with status := { r0.status with initialized := true } }
      : RouteObj).targets (by simpa using hbad)
  have hbuild : buildTrafficConfiguration env.latestReady
      { r0 with status := { r0.status with initialized := true } } =
      (none, some (.target c)) := by
    rw [buildTrafficConfiguration]
    simp only [hres]
  have hct : configureTraffic env
      { r0 with status := { r0.status with initialized := true } } =
      ⟨[], { r0 with status :=
        { r0.status with initialized := true, badTarget := some c } },
       none, none⟩ := by
    rw [configureTraffic, hbuild]
  have hbody : reconcileRoute env r0 =
      ⟨[], { r0 with status :=
        { r0.status with initialized := true, badTarget := some c } }, none⟩ := by
    rw [reconcileRoute]
    simp only [hct]
  refine ⟨by rw [hbody], by rw [hbody], ⟨c, hc, by rw [hbody]⟩, ?_, ?_⟩
  · rw [ReconcileRoute]
    simp only [hbody]
    split
    · rfl
    · rw [hupd]
  · rw [ReconcileRoute]
    simp only [hbody]
    split
    · rfl
    · rw [hupd]

/-- Concrete instantiation of `route_target_error_no_children`: a route
with a single target whose configuration has no ready revision. -/
theorem route_target_error_no_children_witness :
    (reconcileRoute
      ⟨fun _ => none, fun _ => none, fun _ => none, "example.com".data,
       fun _ _ => .notFound, fun _ => none, fun _ => none, ([], none),
       fun _ => ([], .ok true), ([], none), none⟩
      ⟨"ns".data, "r".data, [⟨[], "cfg".data, 100⟩],
       ⟨false, [], none, none, false, []⟩⟩).events = []
    ∧ (ReconcileRoute
      ⟨fun _ => none, fun _ => none, fun _ => none, "example.com".data,
       fun _ _ => .notFound, fun _ => none, fun _ => none, ([], none),
       fun _ => ([], .ok true), ([], none), none⟩
      ⟨"ns".data, "r".data, [⟨[], "cfg".data, 100⟩],
       ⟨false, [], none, none, false, []⟩⟩).2 = none := by
  constructor
  · exact (route_target_error_no_children _ _
      ⟨⟨[], "cfg".data, 100⟩, List.mem_cons_self _ _, rfl⟩ rfl).1
  · exact (route_target_error_no_children _ _
      ⟨⟨[], "cfg".data, 100⟩, List.mem_cons_self _ _, rfl⟩ rfl).2.2.2.2

end Serving
